import Mathlib

set_option maxHeartbeats 1000000

/-!
Verification of the resume-page configuration normalization engine and
content-aware pagination planner (src/main.ts), via a shallow embedding of
the relevant TypeScript/JavaScript code in Lean.

Modelling conventions:
* A parsed YAML/JS value is the inductive `Value` below.  JS `undefined` and
  `null` are separate constructors (`undefinedV`, `null`).  Numbers are modelled
  as `Int` (all values the claims exercise are integers; float formatting of
  non-integers is out of scope).
* Fallible JS code is modelled with `Option`: a function that can throw a
  TypeError returns `none` exactly where the JS code throws.
* Pixel heights and offsets in the pagination planner are modelled as `Int`;
  `Math.floor(pageHeightPx * 0.55)` is modelled as `(pageHeightPx * 55).fdiv 100`,
  which agrees with the double-precision computation on all realistic inputs.
* The JS `while` loop of `getPagedCuts` is embedded with an explicit fuel
  parameter large enough for every terminating run (the cursor advances by at
  least one pixel per iteration whenever `pageHeight > 0`).
-/

/-- A JavaScript/JSON-like value, the shape of a parsed YAML document.
`undefinedV` models JS `undefined`, which is distinct from `null`. -/
inductive Value where
  | undefinedV : Value
  | null : Value
  | bool : Bool → Value
  | num : Int → Value
  | str : String → Value
  | arr : List Value → Value
  | obj : List (String × Value) → Value

/-- JS nullish test (`value == null`, the `??` trigger): `undefined` or `null`. -/
def nullish : Value → Bool
  | .undefinedV => true
  | .null => true
  | _ => false

/-- JS truthiness (`Boolean(value)`). -/
def truthy : Value → Bool
  | .undefinedV => false
  | .null => false
  | .bool b => b
  | .num n => !(n == 0)
  | .str s => !(s == "")
  | .arr _ => true
  | .obj _ => true

/-- A non-object JS primitive (boolean, number, string): using such a value as
the right operand of the `in` operator throws a TypeError. -/
def jsScalar : Value → Bool
  | .bool _ => true
  | .num _ => true
  | .str _ => true
  | _ => false

/-- JS `a ?? b`. -/
def coalesce (a b : Value) : Value :=
  if nullish a then b else a

/-- Property access `v.k` on an arbitrary value: a string-keyed lookup that
yields `undefined` when the receiver is not an object or lacks the key. -/
def getField (v : Value) (k : String) : Value :=
  match v with
  | .obj fs => (fs.lookup k).getD .undefinedV
  | _ => .undefinedV

/-- `'k' in fields`: JS `in` operator on an object's property list. -/
def hasKey (fs : List (String × Value)) (k : String) : Bool :=
  (fs.lookup k).isSome

/-- The characters matched by the JS whitespace class `\s` (also the
characters removed by `String.prototype.trim`). -/
def jsWsChars : List Char :=
  ['\t', '\n', '\x0b', '\x0c', '\r', ' ', '\u00a0', '\u1680', '\u2000',
   '\u2001', '\u2002', '\u2003', '\u2004', '\u2005', '\u2006', '\u2007',
   '\u2008', '\u2009', '\u200a', '\u2028', '\u2029', '\u202f', '\u205f',
   '\u3000', '\ufeff']

/-- Whether a character is JS whitespace. -/
def jsWs (c : Char) : Bool := jsWsChars.contains c

/-- Remove the trailing run of JS whitespace from a character list. -/
def trimEnd : List Char → List Char
  | [] => []
  | c :: rest =>
    let r := trimEnd rest
    if r.isEmpty && jsWs c then [] else c :: r

/-- Remove leading and trailing JS whitespace from a character list. -/
def jsTrimList (l : List Char) : List Char :=
  trimEnd (l.dropWhile jsWs)

/-- JS `String.prototype.trim`. -/
def jsTrim (s : String) : String :=
  (jsTrimList s.toList).asString

/-- Decimal digit character (`0`–`9`) for a digit value. -/
def digitCh (d : Nat) : Char := Char.ofNat (48 + d)

/-- Decimal digit characters of a natural number, most significant first. -/
def natToDigits (n : Nat) : List Char :=
  if _h : n < 10 then [digitCh n]
  else natToDigits (n / 10) ++ [digitCh (n % 10)]
decreasing_by exact Nat.div_lt_self (by omega) (by omega)

/-- JS `String(n)` for an integer-valued number. -/
def jsNumToString (n : Int) : String :=
  if n < 0 then "-" ++ (natToDigits (-n).toNat).asString
  else (natToDigits n.toNat).asString

/-- `toStringValue` (src/main.ts:1731): accepts text (trimmed) or numeric
values (stringified); anything else is absent. -/
def toStringValue : Value → Option String
  | .str s => some (jsTrim s)
  | .num n => some (jsNumToString n)
  | _ => none

/-- Truthiness of a `string | undefined` JS value (`!value`): absent or empty. -/
def strFalsy : Option String → Bool
  | none => true
  | some s => s == ""

/-- `toArray` (src/main.ts:1727). -/
def toArray : Value → List Value
  | .arr l => l
  | _ => []

/-- `toStringArray` (src/main.ts:1741): element-wise string coercion with a
second trim and a truthiness filter; a scalar coerces to a singleton list. -/
def toStringArray (input : Value) : List String :=
  match input with
  | .arr l =>
    (((l.map (fun item => (toStringValue item).getD "")).map jsTrim).filter
      (fun s => !(s == "")))
  | _ =>
    match toStringValue input with
    | none => []
    | some v => if v == "" then [] else [v]

/-- `toBooleanValue` (src/main.ts:1757). -/
def toBooleanValue (input : Value) (fallback : Bool) : Bool :=
  match input with
  | .bool b => b
  | _ => fallback

/-- `asRecord` (src/main.ts:1720): the value only if it is a non-array
object-like tree. -/
def asRecord : Value → Option (List (String × Value))
  | .obj fs => some fs
  | _ => none

/-- `record?.k` on an optional record. -/
def optGet (r : Option (List (String × Value))) (k : String) : Value :=
  match r with
  | none => .undefinedV
  | some fs => (fs.lookup k).getD .undefinedV

/-!  ## Pagination planner (src/main.ts:1305-1365)  -/

/-- Loop body of `findLastSafeCut`: skip cuts below `lo`, stop at the first cut
above `hi`, remember the last cut seen in between. -/
def findLastSafeCutAux : List Int → Int → Int → Option Int → Option Int
  | [], _, _, out => out
  | c :: rest, lo, hi, out =>
    if c < lo then findLastSafeCutAux rest lo hi out
    else if hi < c then out
    else findLastSafeCutAux rest lo hi (some c)

/-- `findLastSafeCut` (src/main.ts:1353): the last safe cut in `[lo, hi]`
occurring before the first cut above `hi`. -/
def findLastSafeCut (cuts : List Int) (lo hi : Int) : Option Int :=
  findLastSafeCutAux cuts lo hi none

/-- The `while` loop of `getPagedCuts` (src/main.ts:1316-1330), with explicit
fuel.  One unit of fuel is spent per loop iteration; `getPagedCuts` supplies
more fuel than any terminating run can use. -/
def pagedCutsLoop (totalHeightPx pageHeightPx : Int) (safeCuts : List Int) :
    Nat → Int → List (Int × Int)
  | 0, _ => []
  | Nat.succ fuel, cursor =>
    if cursor < totalHeightPx then
      let target := cursor + pageHeightPx
      if totalHeightPx ≤ target then [(cursor, totalHeightPx)]
      else
        let minimumSegmentPx := (pageHeightPx * 55).fdiv 100
        let candidate :=
          findLastSafeCut safeCuts (cursor + minimumSegmentPx) target
        let next0 := candidate.getD target
        let next := if next0 ≤ cursor + 80 then min totalHeightPx target else next0
        (cursor, next) :: pagedCutsLoop totalHeightPx pageHeightPx safeCuts fuel next
    else []

/-- `getPagedCuts` (src/main.ts:1305) with the safe cut offsets passed as a
parameter (in the source they are measured from the DOM by `collectSafeCuts`,
which is outside the planner contract). -/
def getPagedCuts (totalHeightPx pageHeightPx : Int) (safeCuts : List Int) :
    List (Int × Int) :=
  pagedCutsLoop totalHeightPx pageHeightPx safeCuts (totalHeightPx.toNat + 1) 0

/-- `segs` is an ordered partition of `[lo, hi)` into non-degenerate
half-open ranges: each segment starts where the previous one ended, each
segment has `start < end`, the first starts at `lo` and the last ends at `hi`. -/
def isPartition (lo hi : Int) : List (Int × Int) → Bool
  | [] => lo == hi
  | (a, b) :: rest => a == lo && decide (lo < b) && isPartition b hi rest

/-- A string is "already trimmed". -/
def StrOk (s : String) : Prop := jsTrim s = s

/-- An optional string is absent or already trimmed. -/
def OStrOk : Option String → Prop
  | none => True
  | some s => StrOk s

/-!  ## Canonical document model (src/main.ts:8-164)  -/

/-- The 7 canonical module identifiers (`ModuleKey`, src/main.ts:8). -/
inductive ModuleKey where
  | education
  | skills
  | projects
  | profile
  | work
  | honors
  | openSource
  deriving DecidableEq

/-- The runtime string of a module key (module keys are strings in JS). -/
def moduleKeyStr : ModuleKey → String
  | .education => "education"
  | .skills => "skills"
  | .projects => "projects"
  | .profile => "profile"
  | .work => "work"
  | .honors => "honors"
  | .openSource => "openSource"

/-- `DEFAULT_ORDER` (src/main.ts:146). -/
def DEFAULT_ORDER : List ModuleKey :=
  [.education, .skills, .projects, .profile, .work, .honors, .openSource]

/-- The per-module title record (`Record<ModuleKey, string>`). -/
structure ModuleTitles where
  education : String
  skills : String
  projects : String
  profile : String
  work : String
  honors : String
  openSource : String
  deriving DecidableEq

/-- `MODULE_TITLES` (src/main.ts:156). -/
def MODULE_TITLES : ModuleTitles :=
  ⟨"教育经历", "专业技能", "项目经历", "自我描述", "工作经历", "荣誉", "开源经历"⟩

/-- `MODULE_ALIAS` (src/main.ts:166): the fixed alias table from cleaned key
spellings to canonical module identifiers. -/
def MODULE_ALIAS : String → Option ModuleKey
  | "education" => some .education
  | "edu" => some .education
  | "skill" => some .skills
  | "skills" => some .skills
  | "project" => some .projects
  | "projects" => some .projects
  | "exp" => some .projects
  | "profile" => some .profile
  | "evaluation" => some .profile
  | "work" => some .work
  | "workexperience" => some .work
  | "honer" => some .honors
  | "honor" => some .honors
  | "honors" => some .honors
  | "opensource" => some .openSource
  | "open_source" => some .openSource
  | _ => none

/-- JS `toLowerCase` (modelled for ASCII letters, which is all the alias table
distinguishes). -/
def jsToLower (s : String) : String := (s.toList.map Char.toLower).asString

/-- `normalizeModuleKey` (src/main.ts:694): strip underscores, hyphens and
whitespace, lowercase, then look the key up in the alias table. -/
def normalizeModuleKey (value : Option String) : Option ModuleKey :=
  match value with
  | none => none
  | some v =>
    if v == "" then none
    else MODULE_ALIAS (jsToLower ((v.toList.filter
      (fun c => !(c == '_' || jsWs c || c == '-'))).asString))

/-- Overwrite one title field (JS record assignment `output[moduleKey] = text`). -/
def setModuleTitle (t : ModuleTitles) : ModuleKey → String → ModuleTitles
  | .education, v => { t with education := v }
  | .skills, v => { t with skills := v }
  | .projects, v => { t with projects := v }
  | .profile, v => { t with profile := v }
  | .work, v => { t with work := v }
  | .honors, v => { t with honors := v }
  | .openSource, v => { t with openSource := v }

/-- One entry of the `normalizeModuleTitleMap` loop (src/main.ts:708-713):
record the assignment when both the module key and the title text are valid. -/
def titleMapStep (output : List (ModuleKey × String)) (kv : String × Value) :
    List (ModuleKey × String) :=
  match normalizeModuleKey (some kv.1), toStringValue kv.2 with
  | some moduleKey, some text =>
    if text == "" then output else output ++ [(moduleKey, text)]
  | _, _ => output

/-- `normalizeModuleTitleMap` (src/main.ts:702): the valid (module key, title)
assignments, in entry order (later assignments to the same key win when the
result is applied left to right). -/
def normalizeModuleTitleMap (input : Option (List (String × Value))) :
    List (ModuleKey × String) :=
  match input with
  | none => []
  | some fs => fs.foldl titleMapStep []

/-- The spread `{...MODULE_TITLES, ...overrides}`: apply the override
assignments over the defaults, in order (last assignment per key wins, which
is exactly the JS spread/record-build semantics). -/
def mergeModuleTitles (base : ModuleTitles) (overrides : List (ModuleKey × String)) :
    ModuleTitles :=
  overrides.foldl (fun acc kv => setModuleTitle acc kv.1 kv.2) base

/-- `normalizeOrder` (src/main.ts:673). -/
def normalizeOrder (order : List String) : List ModuleKey :=
  let source := if order.isEmpty then DEFAULT_ORDER.map moduleKeyStr else order
  let firstPass := source.foldl
    (fun output rawKey =>
      match normalizeModuleKey (some rawKey) with
      | none => output
      | some normalized =>
        if normalized ∈ output then output else output ++ [normalized]) []
  DEFAULT_ORDER.foldl
    (fun output fallbackKey =>
      if fallbackKey ∈ output then output else output ++ [fallbackKey]) firstPass

/-- `trimmed.startsWith('#')` for the single character `#`. -/
def hashPrefixed (s : String) : Bool := s.toList.head? == some '#'

/-- `normalizeColor` (src/main.ts:718). -/
def normalizeColor (value : String) : String :=
  let trimmed := jsTrim value
  if trimmed == "" then "#111111"
  else if hashPrefixed trimmed then trimmed
  else "#" ++ trimmed

/-- Split a character list on single separator characters (JS
`String.prototype.split` with a single-character regex class; no run
collapsing, at least one part is always produced). -/
def splitChars (seps : Char → Bool) : List Char → List Char → List String
  | [], acc => [acc.reverse.asString]
  | c :: rest, acc =>
    if seps c then acc.reverse.asString :: splitChars seps rest []
    else splitChars seps rest (c :: acc)

/-- The technology-stack delimiters `[\s,/|]`. -/
def isTechDelim (c : Char) : Bool := jsWs c || c == ',' || c == '/' || c == '|'

/-- `normalizeTechStack` (src/main.ts:729).  The source splits on *runs* of
delimiters (`[\s,/|]+`); splitting on single delimiters instead only inserts
extra empty parts, which the trailing truthiness filter removes, so the result
is identical. -/
def normalizeTechStack (input : Value) : List String :=
  let fromArray := toStringArray input
  if !fromArray.isEmpty then fromArray
  else
    match toStringValue input with
    | none => []
    | some value =>
      if value == "" then []
      else (((splitChars isTechDelim value.toList []).map jsTrim).filter
        (fun s => !(s == "")))

/-- A labeled address/profile link. -/
structure ResumeLink where
  label : String
  url : String
  deriving DecidableEq

/-- Optional contact channels. -/
structure Contacts where
  wechat : Option String
  phone : Option String
  email : Option String
  deriving DecidableEq

/-- Work-period range; `end_` models the source field `end` (a Lean keyword). -/
structure WorkPeriod where
  start : Option String
  end_ : Option String
  deriving DecidableEq

/-- The education-summary fallback block. -/
structure BasicEducationSummary where
  school : Option String
  major : Option String
  degree : Option String
  graduationYear : Option String
  raw : Option String
  deriving DecidableEq

/-- The canonical `basic` block. -/
structure BasicConfig where
  name : String
  gender : Option String
  age : Option String
  position : Option String
  workPeriod : Option WorkPeriod
  contacts : Contacts
  educationSummary : Option BasicEducationSummary
  addressLinks : List ResumeLink
  deriving DecidableEq

/-- The canonical `site` block. -/
structure SiteConfig where
  title : String
  themeColor : String
  pdfFileName : String
  order : List ModuleKey
  moduleTitles : ModuleTitles
  deriving DecidableEq

/-- An education course entry. -/
structure EducationCourse where
  name : String
  credit : Option String
  deriving DecidableEq

/-- An education entry; `end_` models the source field `end`. -/
structure EducationItem where
  school : String
  start : Option String
  end_ : Option String
  gpa : Option String
  major : Option String
  courses : List EducationCourse
  rank : Option String
  degree : Option String
  deriving DecidableEq

/-- The skills section. -/
structure SkillsConfig where
  enabled : Bool
  ordered : Bool
  hideIndex : Bool
  items : List String
  deriving DecidableEq

/-- A project entry. -/
structure ProjectItem where
  name : String
  time : Option String
  description : Option String
  responsibilities : List String
  techStack : List String
  deriving DecidableEq

/-- A work-experience entry. -/
structure WorkItem where
  company : String
  time : Option String
  position : Option String
  achievements : List String
  deriving DecidableEq

/-- An honors entry. -/
structure HonorItem where
  name : String
  time : Option String
  deriving DecidableEq

/-- An open-source entry. -/
structure OpenSourceItem where
  name : String
  url : Option String
  stars : Option String
  description : Option String
  achievements : List String
  deriving DecidableEq

/-- A module section: an `enabled` flag plus a list of typed entries. -/
structure SectionOf (α : Type) where
  enabled : Bool
  items : List α
  deriving DecidableEq

/-- The profile section (free-text content instead of an item list). -/
structure ProfileSection where
  enabled : Bool
  content : String
  deriving DecidableEq

/-- `NormalizedResumeConfig` (src/main.ts:111): the canonical document. -/
structure NormalizedResumeConfig where
  site : SiteConfig
  basic : BasicConfig
  education : Option (SectionOf EducationItem)
  skills : Option SkillsConfig
  projects : Option (SectionOf ProjectItem)
  profile : Option ProfileSection
  work : Option (SectionOf WorkItem)
  honors : Option (SectionOf HonorItem)
  openSource : Option (SectionOf OpenSourceItem)
  deriving DecidableEq

/-!  ## Section normalizers (src/main.ts:376-756)  -/

/-- One course of the education-section item loop (src/main.ts:394-404). -/
def normalizeEducationCourse (course : Value) : Option EducationCourse :=
  let courseObj := asRecord course
  let name := (toStringValue (optGet courseObj "name")).or (toStringValue course)
  if strFalsy name then none
  else some { name := name.getD "", credit := toStringValue (optGet courseObj "credit") }

/-- One item of the education-section loop (src/main.ts:385-416). -/
def normalizeEducationItem (item : Value) : Option EducationItem :=
  let source := asRecord item
  let school := toStringValue (optGet source "school")
  if strFalsy school then none
  else some {
    school := school.getD "",
    start := toStringValue (optGet source "start"),
    end_ := toStringValue (optGet source "end"),
    gpa := toStringValue (optGet source "gpa"),
    major := toStringValue (optGet source "major"),
    courses := (toArray (optGet source "courses")).filterMap normalizeEducationCourse,
    rank := toStringValue (optGet source "rank"),
    degree := toStringValue (optGet source "degree") }

/-- `normalizeEducationSection` (src/main.ts:376). -/
def normalizeEducationSection (input : Value) : Option (SectionOf EducationItem) :=
  if !truthy input then none
  else
    let sec := asRecord input
    let itemsRaw := toArray (coalesce (optGet sec "items") input)
    let items := itemsRaw.filterMap normalizeEducationItem
    if items.isEmpty then none
    else some { enabled := toBooleanValue (optGet sec "enabled") true, items := items }

/-- `normalizeSkillsSection` (src/main.ts:428). -/
def normalizeSkillsSection (input : Value) : Option SkillsConfig :=
  if !truthy input then none
  else
    let sec := asRecord input
    let items := toStringArray (coalesce (optGet sec "items") input)
    if items.isEmpty then none
    else
      let listStyle := (toStringValue (optGet sec "listStyle")).map jsToLower
      some {
        enabled := toBooleanValue (optGet sec "enabled") true,
        ordered := (listStyle == some "ordered") ||
          toBooleanValue (optGet sec "ordered") false,
        hideIndex := toBooleanValue (optGet sec "hideIndex") false,
        items := items }

/-- One item of the projects-section loop (src/main.ts:458-471). -/
def normalizeProjectItem (item : Value) : Option ProjectItem :=
  let source := asRecord item
  let name := toStringValue (optGet source "name")
  if strFalsy name then none
  else some {
    name := name.getD "",
    time := toStringValue (optGet source "time"),
    description := toStringValue (optGet source "description"),
    responsibilities := toStringArray (optGet source "responsibilities"),
    techStack := normalizeTechStack (optGet source "techStack") }

/-- `normalizeProjectsSection` (src/main.ts:449). -/
def normalizeProjectsSection (input : Value) : Option (SectionOf ProjectItem) :=
  if !truthy input then none
  else
    let sec := asRecord input
    let itemsRaw := toArray (coalesce (optGet sec "items") input)
    let items := itemsRaw.filterMap normalizeProjectItem
    if items.isEmpty then none
    else some { enabled := toBooleanValue (optGet sec "enabled") true, items := items }

/-- `normalizeProfileSection` (src/main.ts:484). -/
def normalizeProfileSection (input : Value) : Option ProfileSection :=
  if !truthy input then none
  else
    let sec := asRecord input
    let content := toStringValue (coalesce (optGet sec "content") input)
    if strFalsy content then none
    else some { enabled := toBooleanValue (optGet sec "enabled") true,
                content := content.getD "" }

/-- One item of the work-section loop (src/main.ts:510-523). -/
def normalizeWorkItem (item : Value) : Option WorkItem :=
  let source := asRecord item
  let company := toStringValue (optGet source "company")
  if strFalsy company then none
  else some {
    company := company.getD "",
    time := toStringValue (optGet source "time"),
    position := toStringValue (optGet source "position"),
    achievements := toStringArray (optGet source "achievements") }

/-- `normalizeWorkSection` (src/main.ts:501). -/
def normalizeWorkSection (input : Value) : Option (SectionOf WorkItem) :=
  if !truthy input then none
  else
    let sec := asRecord input
    let itemsRaw := toArray (coalesce (optGet sec "items") input)
    let items := itemsRaw.filterMap normalizeWorkItem
    if items.isEmpty then none
    else some { enabled := toBooleanValue (optGet sec "enabled") true, items := items }

/-- One item of the honors-section loop (src/main.ts:544-554). -/
def normalizeHonorItem (item : Value) : Option HonorItem :=
  let source := asRecord item
  let name := (toStringValue (optGet source "name")).or (toStringValue item)
  if strFalsy name then none
  else some { name := name.getD "", time := toStringValue (optGet source "time") }

/-- `normalizeHonorsSection` (src/main.ts:535). -/
def normalizeHonorsSection (input : Value) : Option (SectionOf HonorItem) :=
  if !truthy input then none
  else
    let sec := asRecord input
    let itemsRaw := toArray (coalesce (optGet sec "items") input)
    let items := itemsRaw.filterMap normalizeHonorItem
    if items.isEmpty then none
    else some { enabled := toBooleanValue (optGet sec "enabled") true, items := items }

/-- One item of the open-source-section loop (src/main.ts:575-589). -/
def normalizeOpenSourceItem (item : Value) : Option OpenSourceItem :=
  let source := asRecord item
  let name := toStringValue (optGet source "name")
  if strFalsy name then none
  else some {
    name := name.getD "",
    url := toStringValue (optGet source "url"),
    stars := toStringValue (optGet source "stars"),
    description := toStringValue (optGet source "description"),
    achievements := toStringArray (optGet source "achievements") }

/-- `normalizeOpenSourceSection` (src/main.ts:566). -/
def normalizeOpenSourceSection (input : Value) : Option (SectionOf OpenSourceItem) :=
  if !truthy input then none
  else
    let sec := asRecord input
    let itemsRaw := toArray (coalesce (optGet sec "items") input)
    let items := itemsRaw.filterMap normalizeOpenSourceItem
    if items.isEmpty then none
    else some { enabled := toBooleanValue (optGet sec "enabled") true, items := items }

/-- `normalizeLinks` (src/main.ts:638): the source maps each entry to a link or
`undefined` and then filters the defined ones, which is exactly `filterMap`. -/
def normalizeLinks (items : List Value) : List ResumeLink :=
  items.filterMap (fun item =>
    let source := asRecord item
    let label := toStringValue (optGet source "label")
    let url := toStringValue (optGet source "url")
    if strFalsy label || strFalsy url then none
    else some { label := label.getD "", url := url.getD "" })

/-- `normalizeEducationSummary` (src/main.ts:660). -/
def normalizeEducationSummary (input : Option (List (String × Value))) :
    Option BasicEducationSummary :=
  match input with
  | none => none
  | some fs =>
    some {
      school := toStringValue (optGet (some fs) "school"),
      major := toStringValue (optGet (some fs) "major"),
      degree := toStringValue (optGet (some fs) "degree"),
      graduationYear := toStringValue (optGet (some fs) "graduationYear"),
      raw := toStringValue (optGet (some fs) "raw") }

/-- The separators of the dash/tilde family, `[~～—–-]` (src/main.ts:748). -/
def isPeriodSep (c : Char) : Bool :=
  c == '~' || c == '～' || c == '—' || c == '–' || c == '-'

/-- `parseWorkPeriodText` (src/main.ts:744): split the free-text "overall"
string on any dash/tilde separator; the first part becomes `start`, the second
(if any) `end`; give up when the input is falsy or both parts are falsy. -/
def parseWorkPeriodText (value : Option String) : Option WorkPeriod :=
  match value with
  | none => none
  | some v =>
    if v == "" then none
    else
      let parts := (splitChars isPeriodSep v.toList []).map jsTrim
      let start := parts.headD ""
      let end_ := parts[1]?
      if (start == "") && strFalsy end_ then none
      else some { start := some start, end_ := end_ }

/-- `joinTimeRange` (src/main.ts:1764). -/
def joinTimeRange (start end_ : Option String) : Option String :=
  if strFalsy start && strFalsy end_ then none
  else some (String.intercalate " - "
    (([start, end_].filterMap id).filter (fun s => !(s == ""))))

/-!  ## Modern-path assembly (src/main.ts:260-305)  -/

/-- The `site` block of `normalizeModernConfig` (src/main.ts:268-274). -/
def normalizeModernSite (siteObject : Option (List (String × Value))) : SiteConfig :=
  { title := (toStringValue (optGet siteObject "title")).getD "个人简历",
    themeColor :=
      normalizeColor ((toStringValue (optGet siteObject "themeColor")).getD "#111111"),
    pdfFileName := (toStringValue (optGet siteObject "pdfFileName")).getD "resume.pdf",
    order := normalizeOrder (toStringArray (optGet siteObject "order")),
    moduleTitles := mergeModuleTitles MODULE_TITLES
      (normalizeModuleTitleMap (asRecord (optGet siteObject "moduleTitles"))) }

/-- The `basic` block of `normalizeModernConfig` (src/main.ts:276-292). -/
def normalizeModernBasic (basicObject : Option (List (String × Value))) : BasicConfig :=
  { name := (toStringValue (optGet basicObject "name")).getD "未命名",
    gender := toStringValue (optGet basicObject "gender"),
    age := toStringValue (optGet basicObject "age"),
    position := toStringValue (optGet basicObject "position"),
    workPeriod := some {
      start := toStringValue (optGet (asRecord (optGet basicObject "workPeriod")) "start"),
      end_ := toStringValue (optGet (asRecord (optGet basicObject "workPeriod")) "end") },
    contacts := {
      wechat := toStringValue (optGet (asRecord (optGet basicObject "contacts")) "wechat"),
      phone := toStringValue (optGet (asRecord (optGet basicObject "contacts")) "phone"),
      email := toStringValue (optGet (asRecord (optGet basicObject "contacts")) "email") },
    educationSummary :=
      normalizeEducationSummary (asRecord (optGet basicObject "educationSummary")),
    addressLinks := normalizeLinks (toArray (optGet basicObject "addressLinks")) }

/-- `normalizeModernConfig` (src/main.ts:260). -/
def normalizeModernConfig (data : Value) : NormalizedResumeConfig :=
  { site := normalizeModernSite (asRecord (getField data "site")),
    basic := normalizeModernBasic (asRecord (getField data "basic")),
    education := normalizeEducationSection (getField data "education"),
    skills := normalizeSkillsSection (getField data "skills"),
    projects := normalizeProjectsSection (getField data "projects"),
    profile := normalizeProfileSection (getField data "profile"),
    work := normalizeWorkSection (getField data "work"),
    honors := normalizeHonorsSection (getField data "honors"),
    openSource := normalizeOpenSourceSection (getField data "openSource") }

/-!  ## Legacy-path assembly (src/main.ts:307-374, 601-658)  -/

/-- JS `String.prototype.replace` with a plain-string pattern: replace the
first occurrence only. -/
def replaceFirst (s pat repl : String) : String :=
  match s.splitOn pat with
  | [] => s
  | [x] => x
  | x :: rest => x ++ repl ++ String.intercalate pat rest

/-- One item of `normalizeLegacyProjects` (src/main.ts:603-615). -/
def normalizeLegacyProjectItem (item : Value) : Option ProjectItem :=
  let source := asRecord item
  let name := toStringValue (optGet source "name")
  if strFalsy name then none
  else some {
    name := name.getD "",
    time := (toStringValue (optGet source "role")).map
      (fun r => replaceFirst r "后端开发 • " ""),
    description := toStringValue (optGet source "bg"),
    responsibilities := toStringArray (optGet source "des"),
    techStack := normalizeTechStack (optGet source "stack") }

/-- `normalizeLegacyProjects` (src/main.ts:601). -/
def normalizeLegacyProjects (items : List Value) : List ProjectItem :=
  items.filterMap normalizeLegacyProjectItem

/-- One item of `normalizeLegacyWorkItems` (src/main.ts:622-633). -/
def normalizeLegacyWorkItem (item : Value) : Option WorkItem :=
  let source := asRecord item
  let company := toStringValue (optGet source "company")
  if strFalsy company then none
  else some {
    company := company.getD "",
    time := joinTimeRange (toStringValue (optGet source "startDate"))
      (toStringValue (optGet source "endDate")),
    position := toStringValue (optGet source "position"),
    achievements := toStringArray (optGet source "responsibilities") }

/-- `normalizeLegacyWorkItems` (src/main.ts:620). -/
def normalizeLegacyWorkItems (items : List Value) : List WorkItem :=
  items.filterMap normalizeLegacyWorkItem

/-- A hexadecimal digit character (uppercase, as `encodeURIComponent` emits). -/
def uriHexDigit (n : Nat) : Char :=
  if n < 10 then Char.ofNat (48 + n) else Char.ofNat (55 + n)

/-- Bytes left unescaped by `encodeURIComponent`:
`A-Z a-z 0-9 - _ . ! ~ * ' ( )`. -/
def uriUnreservedByte (b : UInt8) : Bool :=
  (65 ≤ b.toNat && b.toNat ≤ 90) || (97 ≤ b.toNat && b.toNat ≤ 122) ||
    (48 ≤ b.toNat && b.toNat ≤ 57) ||
    [45, 46, 33, 95, 126, 42, 39, 40, 41].contains b.toNat

/-- JS `encodeURIComponent`: percent-encode every UTF-8 byte outside the
unreserved set. -/
def encodeURIComponent (s : String) : String :=
  String.join (s.toUTF8.toList.map (fun b =>
    if uriUnreservedByte b then (Char.ofNat b.toNat).toString
    else "%" ++ (uriHexDigit (b.toNat / 16)).toString ++
      (uriHexDigit (b.toNat % 16)).toString))

/-- `normalizeLegacyAddressLinks` (src/main.ts:652). -/
def normalizeLegacyAddressLinks (basic : Option (List (String × Value))) :
    List ResumeLink :=
  match toStringValue (optGet basic "city") with
  | none => []
  | some city =>
    if city == "" then []
    else [{ label := city,
            url := "https://maps.google.com/?q=" ++ encodeURIComponent city }]

/-- `normalizeLegacyConfig` (src/main.ts:307). -/
def normalizeLegacyConfig (data : Value) : NormalizedResumeConfig :=
  let conf := asRecord (getField data "conf")
  let basicLegacy := asRecord (getField data "basic")
  let modulesFromConf := asRecord (optGet conf "modules")
  let overall := toStringValue (optGet basicLegacy "overall")
  let workPeriod := parseWorkPeriodText overall
  let site : SiteConfig :=
    { title := (toStringValue (optGet conf "title")).getD "个人简历",
      themeColor :=
        normalizeColor ((toStringValue (optGet conf "mainThemeColor")).getD "#111111"),
      pdfFileName := (toStringValue (optGet conf "pdf")).getD "resume.pdf",
      order := normalizeOrder ((modulesFromConf.getD []).map Prod.fst),
      moduleTitles := mergeModuleTitles MODULE_TITLES
        (normalizeModuleTitleMap modulesFromConf) }
  let basic : BasicConfig :=
    { name := (toStringValue (optGet basicLegacy "cnName")).getD "未命名",
      gender := toStringValue (optGet basicLegacy "sex"),
      age := toStringValue (optGet basicLegacy "birth"),
      position := toStringValue (optGet basicLegacy "objective"),
      workPeriod := workPeriod,
      contacts := {
        wechat := (toStringValue (optGet basicLegacy "wechat")).or
          (toStringValue (optGet basicLegacy "wechatText")),
        phone := (toStringValue (optGet basicLegacy "phone")).or
          (toStringValue (optGet basicLegacy "phoneNumber")),
        email := (toStringValue (optGet basicLegacy "email")).or
          (toStringValue (optGet basicLegacy "emailText")) },
      educationSummary :=
        if truthy (optGet basicLegacy "college") then
          some { school := none, major := none, degree := none,
                 graduationYear := none,
                 raw := toStringValue (optGet basicLegacy "college") }
        else none,
      addressLinks := normalizeLegacyAddressLinks basicLegacy }
  let profileContent := toStringValue (getField data "evaluation")
  { site := site,
    basic := basic,
    education := none,
    skills := some { enabled := true, ordered := false, hideIndex := false,
                     items := toStringArray (getField data "skill") },
    projects := some { enabled := true,
                       items := normalizeLegacyProjects (toArray (getField data "exp")) },
    profile :=
      if strFalsy profileContent then none
      else some { enabled := true, content := profileContent.getD "" },
    work := some { enabled := true,
                   items := normalizeLegacyWorkItems
                     (toArray (getField data "workExperience")) },
    honors := normalizeHonorsSection (getField data "honors"),
    openSource := normalizeOpenSourceSection (getField data "openSource") }

/-!  ## Top-level dispatch (src/main.ts:250-258)  -/

/-- `raw ?? {}`: the value the marker-key check runs on. -/
def dataOf (raw : Value) : Value := if nullish raw then Value.obj [] else raw

/-- Whether `normalizeConfig` takes the modern path on this input (the legacy
path needs both the `conf` and `basic` marker keys; non-object scalars make
the `in` check throw instead). -/
def takesModernPath (raw : Value) : Bool :=
  match dataOf raw with
  | .obj fs => !(hasKey fs "conf" && hasKey fs "basic")
  | .arr _ => true
  | _ => false

/-- `normalizeConfig` (src/main.ts:250).  `none` models the TypeError thrown
by `'conf' in data` when `data` is a non-object primitive; on an array the
`in` checks succeed (and find no marker keys), so the modern path is taken. -/
def normalizeConfig (raw : Value) : Option NormalizedResumeConfig :=
  match dataOf raw with
  | .obj fs =>
    if hasKey fs "conf" && hasKey fs "basic" then
      some (normalizeLegacyConfig (Value.obj fs))
    else some (normalizeModernConfig (Value.obj fs))
  | .arr l => some (normalizeModernConfig (Value.arr l))
  | _ => none

/-- The legacy test document of C7. -/
def legacyMappingInput : Value :=
  .obj [("conf", .obj [("title", .str "T")]),
        ("basic", .obj [("cnName", .str "N"), ("overall", .str "2019.01~2021.06")])]

/-- The legacy input of the C2 counterexample: `{conf:{}, basic:{}}`. -/
def legacyEmptyInput : Value := .obj [("conf", .obj []), ("basic", .obj [])]

/-- The concrete legacy fields of the C10 witness. -/
def c10fs : List (String × Value) :=
  [("conf", .obj []), ("basic", .obj [("college", .str "X University")])]

/-- Modelled from the spec: a well-formed theme color per the spec's words, a
leading `#` followed by exactly 6 (`#rrggbb`) or exactly 3 (`#rgb`)
hexadecimal digits. -/
def specHexColor (s : String) : Bool :=
  match s.toList with
  | '#' :: rest =>
    (rest.length == 6 || rest.length == 3) && rest.all (fun c =>
      c.isDigit || ('a' ≤ c && c ≤ 'f') || ('A' ≤ c && c ≤ 'F'))
  | _ => false

/-!  ## Canonical-output invariants  -/

/-- A kept list entry: trimmed and non-empty. -/
def StrItemOk (s : String) : Prop := StrOk s ∧ s ≠ ""

/-- Invariant of a canonical education course. -/
def CourseOk (c : EducationCourse) : Prop := StrItemOk c.name ∧ OStrOk c.credit

/-- Invariant of a canonical education item. -/
def EduItemOk (i : EducationItem) : Prop :=
  StrItemOk i.school ∧ OStrOk i.start ∧ OStrOk i.end_ ∧ OStrOk i.gpa ∧
    OStrOk i.major ∧ (∀ c ∈ i.courses, CourseOk c) ∧ OStrOk i.rank ∧ OStrOk i.degree

/-- Invariant of a canonical project item. -/
def ProjItemOk (i : ProjectItem) : Prop :=
  StrItemOk i.name ∧ OStrOk i.time ∧ OStrOk i.description ∧
    (∀ s ∈ i.responsibilities, StrItemOk s) ∧ (∀ s ∈ i.techStack, StrItemOk s)

/-- Invariant of a canonical work item. -/
def WorkItemOk (i : WorkItem) : Prop :=
  StrItemOk i.company ∧ OStrOk i.time ∧ OStrOk i.position ∧
    (∀ s ∈ i.achievements, StrItemOk s)

/-- Invariant of a canonical honor item. -/
def HonorItemOk (i : HonorItem) : Prop := StrItemOk i.name ∧ OStrOk i.time

/-- Invariant of a canonical open-source item. -/
def OssItemOk (i : OpenSourceItem) : Prop :=
  StrItemOk i.name ∧ OStrOk i.url ∧ OStrOk i.stars ∧ OStrOk i.description ∧
    (∀ s ∈ i.achievements, StrItemOk s)

/-- Invariant of a canonical module section: non-empty items, all valid. -/
def SectionOk {α : Type} (P : α → Prop) (s : SectionOf α) : Prop :=
  s.items ≠ [] ∧ ∀ i ∈ s.items, P i

/-- Invariant of the canonical skills section. -/
def SkillsOk (s : SkillsConfig) : Prop := s.items ≠ [] ∧ ∀ i ∈ s.items, StrItemOk i

/-- Invariant of the canonical profile section. -/
def ProfileOk (p : ProfileSection) : Prop := StrItemOk p.content

/-- The modern document of the C2 witness. -/
def c2WitnessInput : Value :=
  .obj [("work", .arr [.obj [("company", .str "ACME")],
                       .obj [("position", .str "dropped, no company")]]),
        ("honors", .arr [.str "Best Prize"])]

/-- The canonical document of the C2 witness. -/
def c2WitnessConfig : NormalizedResumeConfig := normalizeModernConfig c2WitnessInput

/-!  ## Encoding the canonical document back to a raw value (claim C6)

The canonical document is a plain JS object at runtime; feeding it back into
`normalizeConfig` means reading exactly the fields below (absent optional
fields hold `undefined`). -/

/-- An optional string field of the canonical document. -/
def encodeOptStr : Option String → Value
  | none => .undefinedV
  | some s => .str s

/-- A list-of-strings field of the canonical document. -/
def encodeStrList (l : List String) : Value := .arr (l.map Value.str)

/-- A canonical address link. -/
def encodeLink (l : ResumeLink) : Value :=
  .obj [("label", .str l.label), ("url", .str l.url)]

/-- The canonical `site.moduleTitles` record. -/
def encodeTitles (t : ModuleTitles) : Value :=
  .obj [("education", .str t.education), ("skills", .str t.skills),
        ("projects", .str t.projects), ("profile", .str t.profile),
        ("work", .str t.work), ("honors", .str t.honors),
        ("openSource", .str t.openSource)]

/-- The canonical `site` block. -/
def encodeSite (s : SiteConfig) : Value :=
  .obj [("title", .str s.title), ("themeColor", .str s.themeColor),
        ("pdfFileName", .str s.pdfFileName),
        ("order", .arr (s.order.map (fun k => .str (moduleKeyStr k)))),
        ("moduleTitles", encodeTitles s.moduleTitles)]

/-- The canonical `basic.workPeriod` block. -/
def encodeWorkPeriod : Option WorkPeriod → Value
  | none => .undefinedV
  | some wp => .obj [("start", encodeOptStr wp.start), ("end", encodeOptStr wp.end_)]

/-- The canonical `basic.educationSummary` block. -/
def encodeSummary : Option BasicEducationSummary → Value
  | none => .undefinedV
  | some e =>
    .obj [("school", encodeOptStr e.school), ("major", encodeOptStr e.major),
          ("degree", encodeOptStr e.degree),
          ("graduationYear", encodeOptStr e.graduationYear),
          ("raw", encodeOptStr e.raw)]

/-- The canonical `basic` block. -/
def encodeBasic (b : BasicConfig) : Value :=
  .obj [("name", .str b.name), ("gender", encodeOptStr b.gender),
        ("age", encodeOptStr b.age), ("position", encodeOptStr b.position),
        ("workPeriod", encodeWorkPeriod b.workPeriod),
        ("contacts", .obj [("wechat", encodeOptStr b.contacts.wechat),
                           ("phone", encodeOptStr b.contacts.phone),
                           ("email", encodeOptStr b.contacts.email)]),
        ("educationSummary", encodeSummary b.educationSummary),
        ("addressLinks", .arr (b.addressLinks.map encodeLink))]

/-- A canonical education course. -/
def encodeCourse (c : EducationCourse) : Value :=
  .obj [("name", .str c.name), ("credit", encodeOptStr c.credit)]

/-- A canonical education item. -/
def encodeEducationItem (i : EducationItem) : Value :=
  .obj [("school", .str i.school), ("start", encodeOptStr i.start),
        ("end", encodeOptStr i.end_), ("gpa", encodeOptStr i.gpa),
        ("major", encodeOptStr i.major),
        ("courses", .arr (i.courses.map encodeCourse)),
        ("rank", encodeOptStr i.rank), ("degree", encodeOptStr i.degree)]

/-- A canonical project item. -/
def encodeProjectItem (i : ProjectItem) : Value :=
  .obj [("name", .str i.name), ("time", encodeOptStr i.time),
        ("description", encodeOptStr i.description),
        ("responsibilities", encodeStrList i.responsibilities),
        ("techStack", encodeStrList i.techStack)]

/-- A canonical work item. -/
def encodeWorkItem (i : WorkItem) : Value :=
  .obj [("company", .str i.company), ("time", encodeOptStr i.time),
        ("position", encodeOptStr i.position),
        ("achievements", encodeStrList i.achievements)]

/-- A canonical honor item. -/
def encodeHonorItem (i : HonorItem) : Value :=
  .obj [("name", .str i.name), ("time", encodeOptStr i.time)]

/-- A canonical open-source item. -/
def encodeOpenSourceItem (i : OpenSourceItem) : Value :=
  .obj [("name", .str i.name), ("url", encodeOptStr i.url),
        ("stars", encodeOptStr i.stars), ("description", encodeOptStr i.description),
        ("achievements", encodeStrList i.achievements)]

/-- A canonical items-based module section. -/
def encodeSection {α : Type} (enc : α → Value) : Option (SectionOf α) → Value
  | none => .undefinedV
  | some s => .obj [("enabled", .bool s.enabled), ("items", .arr (s.items.map enc))]

/-- The canonical skills section. -/
def encodeSkills : Option SkillsConfig → Value
  | none => .undefinedV
  | some s =>
    .obj [("enabled", .bool s.enabled), ("ordered", .bool s.ordered),
          ("hideIndex", .bool s.hideIndex), ("items", encodeStrList s.items)]

/-- The canonical profile section. -/
def encodeProfile : Option ProfileSection → Value
  | none => .undefinedV
  | some p => .obj [("enabled", .bool p.enabled), ("content", .str p.content)]

/-- A whole canonical document as a raw value. -/
def encodeConfig (c : NormalizedResumeConfig) : Value :=
  .obj [("site", encodeSite c.site), ("basic", encodeBasic c.basic),
        ("education", encodeSection encodeEducationItem c.education),
        ("skills", encodeSkills c.skills),
        ("projects", encodeSection encodeProjectItem c.projects),
        ("profile", encodeProfile c.profile),
        ("work", encodeSection encodeWorkItem c.work),
        ("honors", encodeSection encodeHonorItem c.honors),
        ("openSource", encodeSection encodeOpenSourceItem c.openSource)]

/-- Invariant of a canonical address link. -/
def LinkOk (l : ResumeLink) : Prop := StrItemOk l.label ∧ StrItemOk l.url

/-- Invariant of the canonical education summary. -/
def SummaryOk : Option BasicEducationSummary → Prop
  | none => True
  | some e => OStrOk e.school ∧ OStrOk e.major ∧ OStrOk e.degree ∧
      OStrOk e.graduationYear ∧ OStrOk e.raw

/-- Invariant of the modern-path work period (always present). -/
def WorkPeriodOkM : Option WorkPeriod → Prop
  | none => False
  | some wp => OStrOk wp.start ∧ OStrOk wp.end_

/-- Invariant of the canonical module titles. -/
def TitlesOk (t : ModuleTitles) : Prop :=
  StrItemOk t.education ∧ StrItemOk t.skills ∧ StrItemOk t.projects ∧
    StrItemOk t.profile ∧ StrItemOk t.work ∧ StrItemOk t.honors ∧
    StrItemOk t.openSource

/-- Invariant of the canonical `site` block. -/
def SiteOk (s : SiteConfig) : Prop :=
  StrOk s.title ∧ (StrOk s.themeColor ∧ hashPrefixed s.themeColor = true) ∧
    StrOk s.pdfFileName ∧ s.order.Perm DEFAULT_ORDER ∧ TitlesOk s.moduleTitles

/-- Invariant of the modern-path canonical `basic` block. -/
def BasicOk (b : BasicConfig) : Prop :=
  StrOk b.name ∧ OStrOk b.gender ∧ OStrOk b.age ∧ OStrOk b.position ∧
    WorkPeriodOkM b.workPeriod ∧
    (OStrOk b.contacts.wechat ∧ OStrOk b.contacts.phone ∧ OStrOk b.contacts.email) ∧
    SummaryOk b.educationSummary ∧ (∀ l ∈ b.addressLinks, LinkOk l)

/-- Invariant of an optional module section. -/
def OSectionOk {α : Type} (P : α → Prop) : Option (SectionOf α) → Prop
  | none => True
  | some s => SectionOk P s

/-- Invariant of the optional skills section. -/
def OSkillsOk : Option SkillsConfig → Prop
  | none => True
  | some s => SkillsOk s

/-- Invariant of the optional profile section. -/
def OProfileOk : Option ProfileSection → Prop
  | none => True
  | some p => ProfileOk p

/-- Invariant of a modern-path canonical document. -/
def CanonicalOk (c : NormalizedResumeConfig) : Prop :=
  SiteOk c.site ∧ BasicOk c.basic ∧ OSectionOk EduItemOk c.education ∧
    OSkillsOk c.skills ∧ OSectionOk ProjItemOk c.projects ∧ OProfileOk c.profile ∧
    OSectionOk WorkItemOk c.work ∧ OSectionOk HonorItemOk c.honors ∧
    OSectionOk OssItemOk c.openSource

/-- The canonical document of the empty modern input, used by the C6 witness. -/
def emptyModernDoc : NormalizedResumeConfig := normalizeModernConfig (Value.obj [])

/-!  ## Trim lemmas  -/

theorem toList_asString (l : List Char) : (l.asString).toList = l := rfl

theorem trimEnd_idem (l : List Char) : trimEnd (trimEnd l) = trimEnd l := by
  induction l with
  | nil => rfl
  | cons c rest ih =>
    simp only [trimEnd]
    by_cases h : (trimEnd rest).isEmpty && jsWs c
    · simp [h, trimEnd]
    · simp only [h, if_false]
      simp only [trimEnd, ih]
      simp only [Bool.and_eq_true, List.isEmpty_iff] at h
      by_cases hr : trimEnd rest = []
      · have hc : jsWs c = false := by
          rcases Bool.eq_false_or_eq_true (jsWs c) with h' | h'
          · exact absurd ⟨hr, h'⟩ h
          · exact h'
        simp [hr, hc]
      · simp [hr]

theorem dropWhile_shape (p : Char → Bool) (l : List Char) :
    l.dropWhile p = [] ∨
      ∃ c r, l.dropWhile p = c :: r ∧ p c = false := by
  induction l with
  | nil => exact Or.inl rfl
  | cons c rest ih =>
    by_cases h : p c
    · simpa [List.dropWhile_cons, h] using ih
    · exact Or.inr ⟨c, rest, by simp [List.dropWhile_cons, h], by simp [h]⟩

theorem trimEnd_shape (c : Char) (r : List Char) :
    trimEnd (c :: r) = [] ∨ trimEnd (c :: r) = c :: trimEnd r := by
  simp only [trimEnd]
  by_cases h : (trimEnd r).isEmpty && jsWs c
  · simp [h]
  · simp [h]

theorem jsTrimList_idem (l : List Char) : jsTrimList (jsTrimList l) = jsTrimList l := by
  unfold jsTrimList
  rcases dropWhile_shape jsWs l with h | ⟨c, r, h, hc⟩
  · simp [h, trimEnd]
  · rw [h]
    have hdw : (trimEnd (c :: r)).dropWhile jsWs = trimEnd (c :: r) := by
      rcases trimEnd_shape c r with h' | h'
      · simp [h']
      · rw [h']
        simp [List.dropWhile_cons, hc]
    rw [hdw, trimEnd_idem]

/-- `jsTrim` is idempotent. -/
theorem jsTrim_idem (s : String) : jsTrim (jsTrim s) = jsTrim s := by
  unfold jsTrim
  rw [toList_asString, jsTrimList_idem]

theorem dropWhile_eq_self_of_noWs (l : List Char)
    (h : ∀ c ∈ l, jsWs c = false) : l.dropWhile jsWs = l := by
  cases l with
  | nil => rfl
  | cons c rest => simp [List.dropWhile_cons, h c (by simp)]

theorem trimEnd_eq_self_of_noWs (l : List Char)
    (h : ∀ c ∈ l, jsWs c = false) : trimEnd l = l := by
  induction l with
  | nil => rfl
  | cons c rest ih =>
    simp only [trimEnd, ih (fun x hx => h x (by simp [hx]))]
    simp [h c (by simp)]

theorem jsTrim_eq_self_of_noWs (s : String)
    (h : ∀ c ∈ s.toList, jsWs c = false) : jsTrim s = s := by
  unfold jsTrim jsTrimList
  rw [dropWhile_eq_self_of_noWs _ h, trimEnd_eq_self_of_noWs _ h]
  apply String.ext
  rfl

theorem digitCh_not_ws (d : Nat) (h : d < 10) : jsWs (digitCh d) = false := by
  interval_cases d <;> rfl

theorem natToDigits_chars (n : Nat) :
    ∀ c ∈ natToDigits n, jsWs c = false := by
  induction n using Nat.strong_induction_on with
  | _ n ih =>
    intro c hc
    rw [natToDigits] at hc
    split at hc
    · next h =>
      simp only [List.mem_singleton] at hc
      subst hc
      exact digitCh_not_ws n h
    · next h =>
      rcases List.mem_append.mp hc with h1 | h2
      · exact ih (n / 10) (Nat.div_lt_self (by omega) (by omega)) c h1
      · simp only [List.mem_singleton] at h2
        subst h2
        exact digitCh_not_ws (n % 10) (Nat.mod_lt _ (by omega))

theorem jsNumToString_trimmed (n : Int) : jsTrim (jsNumToString n) = jsNumToString n := by
  apply jsTrim_eq_self_of_noWs
  intro c hc
  unfold jsNumToString at hc
  split at hc
  · rw [String.toList, String.data_append] at hc
    rcases List.mem_append.mp hc with h1 | h2
    · simp only [show ("-" : String).data = ['-'] from rfl, List.mem_singleton] at h1
      subst h1
      rfl
    · exact natToDigits_chars _ c h2
  · exact natToDigits_chars _ c hc

/-- Every string produced by `toStringValue` is already trimmed. -/
theorem toStringValue_StrOk (v : Value) (s : String)
    (h : toStringValue v = some s) : StrOk s := by
  cases v with
  | num n => injection h with h; subst h; exact jsNumToString_trimmed n
  | str t => injection h with h; subst h; exact jsTrim_idem t
  | undefinedV => exact Option.noConfusion h
  | null => exact Option.noConfusion h
  | bool b => exact Option.noConfusion h
  | arr l => exact Option.noConfusion h
  | obj fs => exact Option.noConfusion h

/-- Every element of a `toStringArray` result is trimmed and non-empty. -/
theorem toStringArray_out (v : Value) :
    ∀ s ∈ toStringArray v, StrOk s ∧ s ≠ "" := by
  intro s hs
  cases v with
  | arr l =>
    simp only [toStringArray] at hs
    rw [List.mem_filter] at hs
    obtain ⟨hmem, hne⟩ := hs
    rw [List.mem_map] at hmem
    obtain ⟨t, _, ht⟩ := hmem
    refine ⟨?_, by simpa using hne⟩
    rw [← ht]
    exact jsTrim_idem t
  | num n =>
    simp only [toStringArray, toStringValue] at hs
    split at hs
    · exact absurd hs (by simp)
    · next hne =>
      rw [List.mem_singleton] at hs
      subst hs
      exact ⟨jsNumToString_trimmed n, by simpa using hne⟩
  | str t =>
    simp only [toStringArray, toStringValue] at hs
    split at hs
    · exact absurd hs (by simp)
    · next hne =>
      rw [List.mem_singleton] at hs
      subst hs
      exact ⟨jsTrim_idem t, by simpa using hne⟩
  | undefinedV => simp [toStringArray, toStringValue] at hs
  | null => simp [toStringArray, toStringValue] at hs
  | bool b => simp [toStringArray, toStringValue] at hs
  | obj fs => simp [toStringArray, toStringValue] at hs

/-!  ## Pagination lemmas (claims C3, C4, C8)  -/

theorem findLastSafeCutAux_bound (lo hi : Int) :
    ∀ (cuts : List Int) (out : Option Int),
      (∀ x, out = some x → lo ≤ x ∧ x ≤ hi) →
      ∀ c, findLastSafeCutAux cuts lo hi out = some c → lo ≤ c ∧ c ≤ hi := by
  intro cuts
  induction cuts with
  | nil => intro out hout c hc; exact hout c hc
  | cons a rest ih =>
    intro out hout c hc
    simp only [findLastSafeCutAux] at hc
    split at hc
    next hlt => exact ih out hout c hc
    next hlt =>
      split at hc
      next hgt => exact hout c hc
      next hgt =>
        refine ih (some a) ?_ c hc
        intro x hx
        injection hx with hx
        subst hx
        exact ⟨by omega, by omega⟩

theorem findLastSafeCut_bound (cuts : List Int) (lo hi c : Int)
    (h : findLastSafeCut cuts lo hi = some c) : lo ≤ c ∧ c ≤ hi :=
  findLastSafeCutAux_bound lo hi cuts none (fun x hx => Option.noConfusion hx) c h

theorem pagedCutsLoop_partition (total page : Int) (cuts : List Int) (hp : 0 < page) :
    ∀ (fuel : Nat) (cursor : Int), cursor < total → (total - cursor).toNat < fuel →
      isPartition cursor total (pagedCutsLoop total page cuts fuel cursor) = true := by
  intro fuel
  induction fuel with
  | zero => intro cursor hc hf; omega
  | succ fuel ih =>
    intro cursor hc hf
    simp only [pagedCutsLoop]
    rw [if_pos hc]
    by_cases htar : total ≤ cursor + page
    · rw [if_pos htar]
      simp [isPartition, hc]
    · rw [if_neg htar]
      have hcand :
          ∀ c, findLastSafeCut cuts (cursor + (page * 55).fdiv 100) (cursor + page) =
            some c → c ≤ cursor + page := by
        intro c h
        exact (findLastSafeCut_bound _ _ _ _ h).2
      set next0 :=
        (findLastSafeCut cuts (cursor + (page * 55).fdiv 100) (cursor + page)).getD
          (cursor + page) with hnext0
      have hnext0_le : next0 ≤ cursor + page := by
        rw [hnext0]
        cases hfc : findLastSafeCut cuts (cursor + (page * 55).fdiv 100) (cursor + page) with
        | none => simp
        | some c => simpa using hcand c hfc
      set next := if next0 ≤ cursor + 80 then min total (cursor + page) else next0 with hnext
      have hgt : cursor < next := by
        rw [hnext]
        split
        · exact lt_min hc (by omega)
        · next hbig => omega
      have hlt : next < total := by
        rw [hnext]
        split
        · exact lt_of_le_of_lt (min_le_right _ _) (by omega)
        · omega
      simp only [isPartition, Bool.and_eq_true]
      refine ⟨⟨by simp, by simp [hgt]⟩, ih next hlt (by omega)⟩

/-- C3: for every `totalHeight > 0`, `pageHeight > 0`, and sorted list of safe
cut offsets, the segments returned by `getPagedCuts` exactly partition
`[0, totalHeight)`: the first starts at 0, each segment starts where the
previous ended, every segment has `end > start`, and the last ends at
`totalHeight` (no gaps, no overlaps). -/
theorem getPagedCuts_partition (total page : Int) (cuts : List Int)
    (ht : 0 < total) (hp : 0 < page) (hs : cuts.Sorted (· ≤ ·)) :
    isPartition 0 total (getPagedCuts total page cuts) = true := by
  unfold getPagedCuts
  exact pagedCutsLoop_partition total page cuts hp (total.toNat + 1) 0 ht (by omega)

/-- Witness for C3 at `totalHeight = 1500`, `pageHeight = 800`,
safe cuts `{0, 400, 820, 1500}`. -/
theorem getPagedCuts_partition_witness :
    isPartition 0 1500 (getPagedCuts 1500 800 [0, 400, 820, 1500]) = true :=
  getPagedCuts_partition 1500 800 [0, 400, 820, 1500] (by decide) (by decide)
    (by decide)

/-- C4 counterexample: with safe cuts `{0, 400, 820, 1500}`,
`pageHeight = 800` and `totalHeight = 1500`, the first segment produced by the
planner ends at the naive target 800, not at 820 as the claim states. -/
theorem first_cut_not_820 :
    (getPagedCuts 1500 800 [0, 400, 820, 1500]).head? = some (0, 800) ∧
      ¬((800 : Int) = 820) := by decide

/-- C4 (amended): with safe cuts `{0, 400, 820, 1500}`, `pageHeight = 800`
(so `minSegment = 440`) and `totalHeight = 1500`, no safe offset lies in
`[440, 800]` (400 is below the lower bound and 820 above the target), so per
the literal step-3 rule the first cut falls back to the naive target 800 and
the plan is `[0,800), [800,1500)`. -/
theorem first_cut_naive_800 :
    getPagedCuts 1500 800 [0, 400, 820, 1500] = [(0, 800), (800, 1500)] ∧
      findLastSafeCut [0, 400, 820, 1500] 440 800 = none := by decide

/-- C8 counterexample: `totalHeight = 0 ≤ pageHeight = 5` is inside the range
the claim quantifies over, yet the planner returns no segment at all rather
than exactly one segment. -/
theorem zero_height_no_segments :
    getPagedCuts 0 5 [] = [] ∧ (0 : Int) ≤ 5 := by decide

/-- C8 (amended): for every `0 < totalHeight ≤ pageHeight` the planner returns
exactly one segment `[0, totalHeight)` spanning the whole document (for
`totalHeight ≤ 0` it returns no segments). -/
theorem single_page_when_fits (total page : Int) (cuts : List Int)
    (ht : 0 < total) (hle : total ≤ page) :
    getPagedCuts total page cuts = [(0, total)] := by
  unfold getPagedCuts
  simp only [pagedCutsLoop]
  rw [if_pos ht, if_pos (by omega : total ≤ 0 + page)]

/-- Witness for the amended C8 at `totalHeight = 500`, `pageHeight = 800`. -/
theorem single_page_when_fits_witness :
    getPagedCuts 500 800 [0, 500] = [(0, 500)] :=
  single_page_when_fits 500 800 [0, 500] (by decide) (by decide)

/-!  ## Dispatch lemmas  -/

theorem normalizeConfig_modern (raw : Value) (h : takesModernPath raw = true) :
    normalizeConfig raw = some (normalizeModernConfig (dataOf raw)) := by
  unfold takesModernPath at h
  unfold normalizeConfig
  cases hd : dataOf raw with
  | obj fs =>
    rw [hd] at h
    simp only [Bool.not_eq_true'] at h
    simp [h]
  | arr l => rfl
  | undefinedV => rw [hd] at h; simp at h
  | null => rw [hd] at h; simp at h
  | bool b => rw [hd] at h; simp at h
  | num n => rw [hd] at h; simp at h
  | str s => rw [hd] at h; simp at h

theorem normalizeConfig_legacy (fs : List (String × Value))
    (h1 : hasKey fs "conf" = true) (h2 : hasKey fs "basic" = true) :
    normalizeConfig (Value.obj fs) = some (normalizeLegacyConfig (Value.obj fs)) := by
  unfold normalizeConfig dataOf
  simp [nullish, h1, h2]

/-!  ## Claims C1, C7, C10 and the C2 counterexample  -/

/-- C1 counterexample: on the scalar input `5`, `normalizeConfig` throws (the
`'conf' in data` marker check TypeErrors when `data` is a number — and likewise
for strings and booleans), modelled by `none`: it neither terminates with a
canonical document nor falls back to an effectively-empty one. -/
theorem normalizeConfig_scalar_throws : normalizeConfig (Value.num 5) = none := rfl

/-- C1 (amended): for every raw input that is nullish, an object, or an array,
`normalizeConfig` terminates without throwing and returns a canonical
document, and a nullish input is normalized exactly like the empty record;
a non-object scalar (number, string, boolean), however, makes the marker-key
`in` check throw a TypeError instead of producing an empty document. -/
theorem normalizeConfig_nonscalar_total (raw : Value) :
    (jsScalar raw = false → (normalizeConfig raw).isSome = true) ∧
      (nullish raw = true → normalizeConfig raw = normalizeConfig (Value.obj [])) := by
  constructor
  · intro h
    unfold normalizeConfig
    cases raw with
    | undefinedV => rfl
    | null => rfl
    | bool b => simp [jsScalar] at h
    | num n => simp [jsScalar] at h
    | str s => simp [jsScalar] at h
    | arr l => rfl
    | obj fs =>
      show (if hasKey fs "conf" && hasKey fs "basic" then
          some (normalizeLegacyConfig (Value.obj fs))
        else some (normalizeModernConfig (Value.obj fs))).isSome = true
      split <;> rfl
  · intro h
    cases raw with
    | undefinedV => rfl
    | null => rfl
    | bool b => simp [nullish] at h
    | num n => simp [nullish] at h
    | str s => simp [nullish] at h
    | arr l => simp [nullish] at h
    | obj fs => simp [nullish] at h

/-- Witness for the amended C1 at the nullish input `null`. -/
theorem normalizeConfig_nonscalar_total_witness :
    (normalizeConfig Value.null).isSome = true ∧
      normalizeConfig Value.null = normalizeConfig (Value.obj []) :=
  ⟨(normalizeConfig_nonscalar_total Value.null).1 rfl,
   (normalizeConfig_nonscalar_total Value.null).2 rfl⟩

/-- C7: on `{conf:{title:"T"}, basic:{cnName:"N", overall:"2019.01~2021.06"}}`
the legacy path is taken and the canonical document has `basic.name = "N"`,
`site.title = "T"`, and `basic.workPeriod = {start:"2019.01", end:"2021.06"}`
(the overall string split on the tilde). -/
theorem legacy_mapping_example :
    takesModernPath legacyMappingInput = false ∧
      (normalizeConfig legacyMappingInput).map
          (fun c => (c.basic.name, c.site.title, c.basic.workPeriod)) =
        some ("N", "T", some { start := some "2019.01", end_ := some "2021.06" }) := by
  decide

/-- C2 counterexample: on the legacy input `{conf:{}, basic:{}}`, the canonical
document's work and skills sections are both present yet carry an empty items
list — on the legacy schema path a module section does not collapse to
"absent" when it has no valid entries. -/
theorem legacy_empty_section_present :
    ((normalizeConfig legacyEmptyInput).bind (fun c => c.work)).map
        (fun s => s.items) = some [] ∧
      ((normalizeConfig legacyEmptyInput).bind (fun c => c.skills)).map
        (fun s => s.items) = some [] := by
  decide

/-- C10: for every input whose root carries both the `conf` and `basic` marker
keys (the legacy path), the canonical document's structured education section
is always absent, regardless of any education-like data in the input; the
`basic.educationSummary` fallback is populated (as a raw summary) exactly from
the legacy `college` field. -/
theorem legacy_education_absent (fs : List (String × Value))
    (h1 : hasKey fs "conf" = true) (h2 : hasKey fs "basic" = true) :
    (normalizeConfig (Value.obj fs)).map (fun c => c.education) = some none ∧
      (normalizeConfig (Value.obj fs)).map (fun c => c.basic.educationSummary) =
        some (if truthy (optGet (asRecord (getField (Value.obj fs) "basic")) "college")
          then
            some { school := none, major := none, degree := none,
                   graduationYear := none,
                   raw := toStringValue
                     (optGet (asRecord (getField (Value.obj fs) "basic")) "college") }
          else none) := by
  rw [normalizeConfig_legacy fs h1 h2]
  exact ⟨rfl, rfl⟩

/-- Witness for C10 on `{conf:{}, basic:{college:"X University"}}`. -/
theorem legacy_education_absent_witness :
    (normalizeConfig (Value.obj c10fs)).map (fun c => c.education) = some none ∧
      (normalizeConfig (Value.obj c10fs)).map (fun c => c.basic.educationSummary) =
        some (if truthy (optGet (asRecord (getField (Value.obj c10fs) "basic")) "college")
          then
            some { school := none, major := none, degree := none,
                   graduationYear := none,
                   raw := toStringValue
                     (optGet (asRecord (getField (Value.obj c10fs) "basic")) "college") }
          else none) :=
  legacy_education_absent c10fs rfl rfl

/-!  ## Order-resolution lemmas (claim C5)  -/

theorem moduleKey_mem_default (k : ModuleKey) : k ∈ DEFAULT_ORDER := by
  cases k <;> decide

theorem orderStep2_mem (a : ModuleKey) :
    ∀ (ds acc : List ModuleKey),
      (a ∈ ds.foldl (fun output fallbackKey =>
          if fallbackKey ∈ output then output else output ++ [fallbackKey]) acc) ↔
        a ∈ acc ∨ a ∈ ds := by
  intro ds
  induction ds with
  | nil => intro acc; simp
  | cons d rest ih =>
    intro acc
    simp only [List.foldl_cons]
    rw [ih]
    by_cases hd : d ∈ acc
    · rw [if_pos hd]
      constructor
      · rintro (h | h)
        · exact Or.inl h
        · exact Or.inr (List.mem_cons_of_mem d h)
      · rintro (h | h)
        · exact Or.inl h
        · rcases List.mem_cons.mp h with h | h
          · subst h; exact Or.inl hd
          · exact Or.inr h
    · rw [if_neg hd]
      simp only [List.mem_append, List.mem_singleton, List.mem_cons]
      tauto

theorem orderStep2_nodup :
    ∀ (ds acc : List ModuleKey), acc.Nodup →
      (ds.foldl (fun output fallbackKey =>
        if fallbackKey ∈ output then output else output ++ [fallbackKey]) acc).Nodup := by
  intro ds
  induction ds with
  | nil => intro acc h; exact h
  | cons d rest ih =>
    intro acc h
    simp only [List.foldl_cons]
    by_cases hd : d ∈ acc
    · rw [if_pos hd]; exact ih acc h
    · rw [if_neg hd]
      refine ih _ (List.nodup_append.mpr ⟨h, List.nodup_singleton d, ?_⟩)
      intro x hx hxd
      rw [List.mem_singleton] at hxd
      subst hxd
      exact hd hx

theorem orderStep1_nodup (source : List String) :
    ∀ acc : List ModuleKey, acc.Nodup →
      (source.foldl (fun output rawKey =>
        match normalizeModuleKey (some rawKey) with
        | none => output
        | some normalized =>
          if normalized ∈ output then output else output ++ [normalized]) acc).Nodup := by
  induction source with
  | nil => intro acc h; exact h
  | cons s rest ih =>
    intro acc h
    simp only [List.foldl_cons]
    cases hk : normalizeModuleKey (some s) with
    | none => simp only [hk]; exact ih acc h
    | some m =>
      simp only [hk]
      by_cases hm : m ∈ acc
      · rw [if_pos hm]; exact ih acc h
      · rw [if_neg hm]
        refine ih _ (List.nodup_append.mpr ⟨h, List.nodup_singleton m, ?_⟩)
        intro x hx hxm
        rw [List.mem_singleton] at hxm
        subst hxm
        exact hm hx

theorem normalizeOrder_perm (order : List String) :
    (normalizeOrder order).Perm DEFAULT_ORDER := by
  have hnodup : (normalizeOrder order).Nodup := by
    simp only [normalizeOrder]
    exact orderStep2_nodup DEFAULT_ORDER _ (orderStep1_nodup _ [] List.nodup_nil)
  have hmem : ∀ a : ModuleKey, a ∈ normalizeOrder order := by
    intro a
    simp only [normalizeOrder]
    exact (orderStep2_mem a DEFAULT_ORDER _).mpr (Or.inr (moduleKey_mem_default a))
  apply List.perm_of_nodup_nodup_toFinset_eq hnodup (by decide)
  ext x
  simp only [List.mem_toFinset]
  exact ⟨fun _ => moduleKey_mem_default x, fun _ => hmem x⟩

/-- C5: for every input list of strings (empty, unknown keys, duplicates, and
alias spellings included), `normalizeOrder` returns a permutation of exactly
the 7 canonical module identifiers with no duplicates: recognized entries are
kept, unknown entries discarded, and missing canonical identifiers appended. -/
theorem normalizeOrder_perm_default (order : List String) :
    (normalizeOrder order).Perm DEFAULT_ORDER :=
  normalizeOrder_perm order

/-!  ## Theme color lemmas (claim C9)  -/

theorem string_hash_toList (s : String) : ("#" ++ s).toList = '#' :: s.toList := by
  show ("#" ++ s).data = '#' :: s.data
  rw [String.data_append]
  rfl

theorem StrOk_of_data (t : String) (h : jsTrimList t.data = t.data) : StrOk t := by
  unfold StrOk jsTrim
  show (jsTrimList t.data).asString = t
  rw [h]
  apply String.ext
  rfl

theorem data_of_StrOk (t : String) (h : StrOk t) : jsTrimList t.data = t.data :=
  congrArg String.data h

theorem strok_hash_jsTrim (x : String) : StrOk ("#" ++ jsTrim x) := by
  apply StrOk_of_data
  have hdata : ("#" ++ jsTrim x).data = '#' :: jsTrimList x.toList := by
    rw [show ("#" ++ jsTrim x).data = ("#" ++ jsTrim x).toList from rfl,
      string_hash_toList, jsTrim, toList_asString]
  rw [hdata]
  have h1 : List.dropWhile jsWs ('#' :: jsTrimList x.toList)
      = '#' :: jsTrimList x.toList := by
    rw [List.dropWhile_cons]
    simp [show jsWs '#' = false from rfl]
  show trimEnd (List.dropWhile jsWs ('#' :: jsTrimList x.toList)) = _
  rw [h1]
  show (if (trimEnd (jsTrimList x.toList)).isEmpty && jsWs '#' then []
    else '#' :: trimEnd (jsTrimList x.toList)) = '#' :: jsTrimList x.toList
  rw [show jsWs '#' = false from rfl, Bool.and_false]
  show '#' :: trimEnd (jsTrimList x.toList) = '#' :: jsTrimList x.toList
  unfold jsTrimList
  rw [trimEnd_idem]

theorem normalizeColor_out (value : String) :
    StrOk (normalizeColor value) ∧ hashPrefixed (normalizeColor value) = true := by
  simp only [normalizeColor]
  split
  · exact ⟨by unfold StrOk; decide, by decide⟩
  · split
    · next h2 => exact ⟨jsTrim_idem value, h2⟩
    · refine ⟨strok_hash_jsTrim value, ?_⟩
      simp [hashPrefixed, string_hash_toList]

/-- C9 (amended): the stored theme color always begins with `#`, and absent or
blank (whitespace-only) input normalizes to the fixed default `#111111`; the
hex digits themselves are not validated (arbitrary text is kept, with `#`
prepended when missing). -/
theorem normalizeColor_hash_and_default (s : String) :
    hashPrefixed (normalizeColor s) = true ∧
      (jsTrim s = "" → normalizeColor s = "#111111") := by
  refine ⟨(normalizeColor_out s).2, ?_⟩
  intro h
  simp [normalizeColor, h]

/-- Witness for the amended C9: "zzz" keeps a leading '#', blank input falls
back to the default color. -/
theorem normalizeColor_hash_and_default_witness :
    hashPrefixed (normalizeColor "zzz") = true ∧ normalizeColor "  " = "#111111" :=
  ⟨(normalizeColor_hash_and_default "zzz").1,
   (normalizeColor_hash_and_default "  ").2 (by decide)⟩

/-- C9 counterexample: the input `"zzz"` is stored as `"#zzz"`, which is not a
well-formed `#rrggbb`/`#rgb` hex form — `normalizeColor` performs no hex
validation. -/
theorem normalizeColor_not_hex_validated :
    normalizeColor "zzz" = "#zzz" ∧ specHexColor "#zzz" = false := by decide

/-!  ## Output lemmas for the section normalizers  -/

theorem ostrok_toStringValue (v : Value) : OStrOk (toStringValue v) := by
  cases h : toStringValue v with
  | none => trivial
  | some s => exact toStringValue_StrOk v s h

theorem getD_StrOk (v : Value) (d : String) (hd : StrOk d) :
    StrOk ((toStringValue v).getD d) := by
  cases h : toStringValue v with
  | none => simpa using hd
  | some s => simpa using toStringValue_StrOk v s h

theorem strFalsy_false_elim (o : Option String) (h : strFalsy o = false) :
    ∃ s, o = some s ∧ s ≠ "" := by
  cases o with
  | none => simp [strFalsy] at h
  | some s => exact ⟨s, rfl, by simpa [strFalsy] using h⟩

theorem OStrOk_or (a b : Option String) (ha : OStrOk a) (hb : OStrOk b) :
    OStrOk (a.or b) := by
  cases a with
  | none => simpa [Option.or] using hb
  | some s => simpa [Option.or] using ha

theorem strItemOk_of_not_falsy (o : Option String) (ho : OStrOk o)
    (h : strFalsy o = false) : StrItemOk (o.getD "") := by
  obtain ⟨s, hs, hne⟩ := strFalsy_false_elim o h
  subst hs
  exact ⟨ho, hne⟩

theorem filterMap_out {α β : Type} (f : α → Option β) (P : β → Prop)
    (hf : ∀ a b, f a = some b → P b) (l : List α) :
    ∀ b ∈ l.filterMap f, P b := by
  intro b hb
  rw [List.mem_filterMap] at hb
  obtain ⟨a, _, ha⟩ := hb
  exact hf a b ha

theorem toStringArray_itemOk (v : Value) : ∀ s ∈ toStringArray v, StrItemOk s :=
  fun s hs => ⟨(toStringArray_out v s hs).1, (toStringArray_out v s hs).2⟩

theorem normalizeTechStack_out (v : Value) :
    ∀ s ∈ normalizeTechStack v, StrItemOk s := by
  intro s hs
  simp only [normalizeTechStack] at hs
  split at hs
  · exact toStringArray_itemOk v s hs
  · revert hs
    split
    · intro hs; exact absurd hs (by simp)
    · split
      · intro hs; exact absurd hs (by simp)
      · intro hs
        rw [List.mem_filter] at hs
        obtain ⟨hmem, hne⟩ := hs
        rw [List.mem_map] at hmem
        obtain ⟨t, _, ht⟩ := hmem
        subst ht
        exact ⟨jsTrim_idem t, by simpa using hne⟩

theorem normalizeEducationCourse_out (v : Value) (c : EducationCourse)
    (h : normalizeEducationCourse v = some c) : CourseOk c := by
  simp only [normalizeEducationCourse] at h
  split at h
  · exact Option.noConfusion h
  · next hf =>
    injection h with h
    subst h
    exact ⟨strItemOk_of_not_falsy _
        (OStrOk_or _ _ (ostrok_toStringValue _) (ostrok_toStringValue _))
        (by simpa using hf),
      ostrok_toStringValue _⟩

theorem normalizeEducationItem_out (v : Value) (i : EducationItem)
    (h : normalizeEducationItem v = some i) : EduItemOk i := by
  simp only [normalizeEducationItem] at h
  split at h
  · exact Option.noConfusion h
  · next hf =>
    injection h with h
    subst h
    exact ⟨strItemOk_of_not_falsy _ (ostrok_toStringValue _) (by simpa using hf),
      ostrok_toStringValue _, ostrok_toStringValue _, ostrok_toStringValue _,
      ostrok_toStringValue _,
      filterMap_out _ _ normalizeEducationCourse_out _,
      ostrok_toStringValue _, ostrok_toStringValue _⟩

theorem normalizeProjectItem_out (v : Value) (i : ProjectItem)
    (h : normalizeProjectItem v = some i) : ProjItemOk i := by
  simp only [normalizeProjectItem] at h
  split at h
  · exact Option.noConfusion h
  · next hf =>
    injection h with h
    subst h
    exact ⟨strItemOk_of_not_falsy _ (ostrok_toStringValue _) (by simpa using hf),
      ostrok_toStringValue _, ostrok_toStringValue _,
      toStringArray_itemOk _, normalizeTechStack_out _⟩

theorem normalizeWorkItem_out (v : Value) (i : WorkItem)
    (h : normalizeWorkItem v = some i) : WorkItemOk i := by
  simp only [normalizeWorkItem] at h
  split at h
  · exact Option.noConfusion h
  · next hf =>
    injection h with h
    subst h
    exact ⟨strItemOk_of_not_falsy _ (ostrok_toStringValue _) (by simpa using hf),
      ostrok_toStringValue _, ostrok_toStringValue _, toStringArray_itemOk _⟩

theorem normalizeHonorItem_out (v : Value) (i : HonorItem)
    (h : normalizeHonorItem v = some i) : HonorItemOk i := by
  simp only [normalizeHonorItem] at h
  split at h
  · exact Option.noConfusion h
  · next hf =>
    injection h with h
    subst h
    exact ⟨strItemOk_of_not_falsy _
        (OStrOk_or _ _ (ostrok_toStringValue _) (ostrok_toStringValue _))
        (by simpa using hf),
      ostrok_toStringValue _⟩

theorem normalizeOpenSourceItem_out (v : Value) (i : OpenSourceItem)
    (h : normalizeOpenSourceItem v = some i) : OssItemOk i := by
  simp only [normalizeOpenSourceItem] at h
  split at h
  · exact Option.noConfusion h
  · next hf =>
    injection h with h
    subst h
    exact ⟨strItemOk_of_not_falsy _ (ostrok_toStringValue _) (by simpa using hf),
      ostrok_toStringValue _, ostrok_toStringValue _, ostrok_toStringValue _,
      toStringArray_itemOk _⟩

theorem normalizeEducationSection_out (input : Value) (s : SectionOf EducationItem)
    (h : normalizeEducationSection input = some s) : SectionOk EduItemOk s := by
  simp only [normalizeEducationSection] at h
  split at h
  · exact Option.noConfusion h
  · split at h
    · exact Option.noConfusion h
    · next hni =>
      injection h with h
      subst h
      exact ⟨by simpa using hni, filterMap_out _ _ normalizeEducationItem_out _⟩

theorem normalizeProjectsSection_out (input : Value) (s : SectionOf ProjectItem)
    (h : normalizeProjectsSection input = some s) : SectionOk ProjItemOk s := by
  simp only [normalizeProjectsSection] at h
  split at h
  · exact Option.noConfusion h
  · split at h
    · exact Option.noConfusion h
    · next hni =>
      injection h with h
      subst h
      exact ⟨by simpa using hni, filterMap_out _ _ normalizeProjectItem_out _⟩

theorem normalizeWorkSection_out (input : Value) (s : SectionOf WorkItem)
    (h : normalizeWorkSection input = some s) : SectionOk WorkItemOk s := by
  simp only [normalizeWorkSection] at h
  split at h
  · exact Option.noConfusion h
  · split at h
    · exact Option.noConfusion h
    · next hni =>
      injection h with h
      subst h
      exact ⟨by simpa using hni, filterMap_out _ _ normalizeWorkItem_out _⟩

theorem normalizeHonorsSection_out (input : Value) (s : SectionOf HonorItem)
    (h : normalizeHonorsSection input = some s) : SectionOk HonorItemOk s := by
  simp only [normalizeHonorsSection] at h
  split at h
  · exact Option.noConfusion h
  · split at h
    · exact Option.noConfusion h
    · next hni =>
      injection h with h
      subst h
      exact ⟨by simpa using hni, filterMap_out _ _ normalizeHonorItem_out _⟩

theorem normalizeOpenSourceSection_out (input : Value) (s : SectionOf OpenSourceItem)
    (h : normalizeOpenSourceSection input = some s) : SectionOk OssItemOk s := by
  simp only [normalizeOpenSourceSection] at h
  split at h
  · exact Option.noConfusion h
  · split at h
    · exact Option.noConfusion h
    · next hni =>
      injection h with h
      subst h
      exact ⟨by simpa using hni, filterMap_out _ _ normalizeOpenSourceItem_out _⟩

theorem normalizeSkillsSection_out (input : Value) (s : SkillsConfig)
    (h : normalizeSkillsSection input = some s) : SkillsOk s := by
  simp only [normalizeSkillsSection] at h
  split at h
  · exact Option.noConfusion h
  · split at h
    · exact Option.noConfusion h
    · next hni =>
      injection h with h
      subst h
      exact ⟨by simpa using hni, fun i hi => toStringArray_itemOk _ i hi⟩

theorem normalizeProfileSection_out (input : Value) (p : ProfileSection)
    (h : normalizeProfileSection input = some p) : ProfileOk p := by
  simp only [normalizeProfileSection] at h
  split at h
  · exact Option.noConfusion h
  · split at h
    · exact Option.noConfusion h
    · next hf =>
      injection h with h
      subst h
      exact strItemOk_of_not_falsy _ (ostrok_toStringValue _) (by simpa using hf)

theorem normalizeConfig_cases (v : Value) (c : NormalizedResumeConfig)
    (h : normalizeConfig v = some c) :
    (takesModernPath v = true ∧ c = normalizeModernConfig (dataOf v)) ∨
      (takesModernPath v = false ∧ c = normalizeLegacyConfig (dataOf v)) := by
  by_cases hm : takesModernPath v = true
  · left
    refine ⟨hm, ?_⟩
    rw [normalizeConfig_modern v hm] at h
    exact (Option.some.inj h).symm
  · right
    have hmf : takesModernPath v = false := by simpa using hm
    refine ⟨hmf, ?_⟩
    unfold takesModernPath at hmf
    unfold normalizeConfig at h
    cases hd : dataOf v with
    | obj fs =>
      rw [hd] at h hmf
      simp only [Bool.not_eq_false'] at hmf
      change (if (hasKey fs "conf" && hasKey fs "basic") = true then
          some (normalizeLegacyConfig (Value.obj fs))
        else some (normalizeModernConfig (Value.obj fs))) = some c at h
      rw [if_pos hmf] at h
      exact (Option.some.inj h).symm
    | arr l => rw [hd] at hmf; simp at hmf
    | undefinedV => rw [hd] at h; exact Option.noConfusion h
    | null => rw [hd] at h; exact Option.noConfusion h
    | bool b => rw [hd] at h; exact Option.noConfusion h
    | num n => rw [hd] at h; exact Option.noConfusion h
    | str s => rw [hd] at h; exact Option.noConfusion h

/-- C2 (amended): for every raw input, any honors or open-source section of
the canonical document (on either schema path) is non-empty with every
entry's required name field non-blank; on the modern path the same holds for
the education, skills, projects and work sections (entries missing the
required field are dropped, and a section with no valid entries is absent).
On the legacy path, however, the skills, projects and work sections are
always present, possibly with an empty items list. -/
theorem sections_nonempty (v : Value) (c : NormalizedResumeConfig)
    (h : normalizeConfig v = some c) :
    ((∀ s, c.honors = some s → s.items ≠ [] ∧ ∀ i ∈ s.items, i.name ≠ "") ∧
     (∀ s, c.openSource = some s → s.items ≠ [] ∧ ∀ i ∈ s.items, i.name ≠ "")) ∧
      (takesModernPath v = true →
        (∀ s, c.education = some s → s.items ≠ [] ∧ ∀ i ∈ s.items, i.school ≠ "") ∧
        (∀ s, c.skills = some s → s.items ≠ [] ∧ ∀ i ∈ s.items, i ≠ "") ∧
        (∀ s, c.projects = some s → s.items ≠ [] ∧ ∀ i ∈ s.items, i.name ≠ "") ∧
        (∀ s, c.work = some s → s.items ≠ [] ∧ ∀ i ∈ s.items, i.company ≠ "")) := by
  rcases normalizeConfig_cases v c h with ⟨hm, hc⟩ | ⟨hm, hc⟩
  · subst hc
    constructor
    · constructor
      · intro s hs
        have hout := normalizeHonorsSection_out _ s hs
        exact ⟨hout.1, fun i hi => ((hout.2 i hi).1).2⟩
      · intro s hs
        have hout := normalizeOpenSourceSection_out _ s hs
        exact ⟨hout.1, fun i hi => ((hout.2 i hi).1).2⟩
    · intro _
      refine ⟨?_, ?_, ?_, ?_⟩
      · intro s hs
        have hout := normalizeEducationSection_out _ s hs
        exact ⟨hout.1, fun i hi => ((hout.2 i hi).1).2⟩
      · intro s hs
        have hout := normalizeSkillsSection_out _ s hs
        exact ⟨hout.1, fun i hi => (hout.2 i hi).2⟩
      · intro s hs
        have hout := normalizeProjectsSection_out _ s hs
        exact ⟨hout.1, fun i hi => ((hout.2 i hi).1).2⟩
      · intro s hs
        have hout := normalizeWorkSection_out _ s hs
        exact ⟨hout.1, fun i hi => ((hout.2 i hi).1).2⟩
  · subst hc
    constructor
    · constructor
      · intro s hs
        have hout := normalizeHonorsSection_out _ s hs
        exact ⟨hout.1, fun i hi => ((hout.2 i hi).1).2⟩
      · intro s hs
        have hout := normalizeOpenSourceSection_out _ s hs
        exact ⟨hout.1, fun i hi => ((hout.2 i hi).1).2⟩
    · intro hmt
      rw [hm] at hmt
      exact Bool.noConfusion hmt

/-- Witness for the amended C2 on a concrete modern document. -/
theorem sections_nonempty_witness :
    ((∀ s, c2WitnessConfig.honors = some s →
        s.items ≠ [] ∧ ∀ i ∈ s.items, i.name ≠ "") ∧
     (∀ s, c2WitnessConfig.openSource = some s →
        s.items ≠ [] ∧ ∀ i ∈ s.items, i.name ≠ "")) ∧
      (takesModernPath c2WitnessInput = true →
        (∀ s, c2WitnessConfig.education = some s →
          s.items ≠ [] ∧ ∀ i ∈ s.items, i.school ≠ "") ∧
        (∀ s, c2WitnessConfig.skills = some s →
          s.items ≠ [] ∧ ∀ i ∈ s.items, i ≠ "") ∧
        (∀ s, c2WitnessConfig.projects = some s →
          s.items ≠ [] ∧ ∀ i ∈ s.items, i.name ≠ "") ∧
        (∀ s, c2WitnessConfig.work = some s →
          s.items ≠ [] ∧ ∀ i ∈ s.items, i.company ≠ "")) :=
  sections_nonempty c2WitnessInput c2WitnessConfig rfl

/-!  ## Stability lemmas: re-normalizing an encoded canonical value  -/

theorem toStringValue_str_of_StrOk (s : String) (h : StrOk s) :
    toStringValue (.str s) = some s := by
  show some (jsTrim s) = some s
  rw [h]

theorem toStringValue_encodeOptStr (o : Option String) (ho : OStrOk o) :
    toStringValue (encodeOptStr o) = o := by
  cases o with
  | none => rfl
  | some s => exact toStringValue_str_of_StrOk s ho

theorem or_some_left {α : Type} (a : α) (b : Option α) : (some a).or b = some a := rfl

theorem toStringArray_encodeStrList :
    ∀ (l : List String), (∀ s ∈ l, StrItemOk s) → toStringArray (encodeStrList l) = l
  | [], _ => rfl
  | a :: rest, h => by
    have ha1 : jsTrim a = a := (h a (List.mem_cons_self a rest)).1
    have ha2 : a ≠ "" := (h a (List.mem_cons_self a rest)).2
    have hrest := toStringArray_encodeStrList rest
      (fun s hs => h s (List.mem_cons_of_mem a hs))
    simp only [encodeStrList, toStringArray, List.map_cons] at hrest ⊢
    rw [show (toStringValue (Value.str a)).getD "" = jsTrim a from rfl]
    simp only [ha1, List.filter_cons]
    have hcond : (!(a == "")) = true := by simpa using ha2
    rw [hcond]
    simp only [if_true, hrest]

theorem filterMap_encode_eq_self {α : Type} (f : Value → Option α) (enc : α → Value)
    (P : α → Prop) (hstab : ∀ a, P a → f (enc a) = some a) :
    ∀ (l : List α), (∀ a ∈ l, P a) → (l.map enc).filterMap f = l
  | [], _ => rfl
  | a :: rest, h => by
    simp only [List.map_cons, List.filterMap_cons,
      hstab a (h a (List.mem_cons_self a rest))]
    rw [filterMap_encode_eq_self f enc P hstab rest
      (fun x hx => h x (List.mem_cons_of_mem a hx))]

theorem normalizeEducationCourse_stab (c : EducationCourse) (hOk : CourseOk c) :
    normalizeEducationCourse (encodeCourse c) = some c := by
  obtain ⟨⟨hname, hne⟩, hcred⟩ := hOk
  have h1 : optGet (asRecord (encodeCourse c)) "name" = .str c.name := rfl
  have h2 : optGet (asRecord (encodeCourse c)) "credit" = encodeOptStr c.credit := rfl
  simp only [normalizeEducationCourse, h1, h2,
    toStringValue_str_of_StrOk c.name hname, or_some_left]
  have hsf : strFalsy (some c.name) = false := by simpa [strFalsy] using hne
  rw [hsf]
  simp only [Bool.false_eq_true, if_false, Option.getD_some,
    toStringValue_encodeOptStr c.credit hcred]

theorem normalizeTechStack_stab (l : List String) (h : ∀ s ∈ l, StrItemOk s) :
    normalizeTechStack (encodeStrList l) = l := by
  cases l with
  | nil => rfl
  | cons a rest =>
    have harr := toStringArray_encodeStrList (a :: rest) h
    simp only [normalizeTechStack, harr, List.isEmpty_cons, Bool.not_false, if_true]

theorem normalizeEducationItem_stab (i : EducationItem) (hOk : EduItemOk i) :
    normalizeEducationItem (encodeEducationItem i) = some i := by
  obtain ⟨⟨hschool, hne⟩, hstart, hend, hgpa, hmajor, hcourses, hrank, hdegree⟩ := hOk
  have h1 : optGet (asRecord (encodeEducationItem i)) "school" = .str i.school := rfl
  have h2 : optGet (asRecord (encodeEducationItem i)) "start" = encodeOptStr i.start := rfl
  have h3 : optGet (asRecord (encodeEducationItem i)) "end" = encodeOptStr i.end_ := rfl
  have h4 : optGet (asRecord (encodeEducationItem i)) "gpa" = encodeOptStr i.gpa := rfl
  have h5 : optGet (asRecord (encodeEducationItem i)) "major" = encodeOptStr i.major := rfl
  have h6 : toArray (optGet (asRecord (encodeEducationItem i)) "courses")
      = i.courses.map encodeCourse := rfl
  have h7 : optGet (asRecord (encodeEducationItem i)) "rank" = encodeOptStr i.rank := rfl
  have h8 : optGet (asRecord (encodeEducationItem i)) "degree" = encodeOptStr i.degree := rfl
  simp only [normalizeEducationItem, h1, h2, h3, h4, h5, h6, h7, h8,
    toStringValue_str_of_StrOk i.school hschool]
  have hsf : strFalsy (some i.school) = false := by simpa [strFalsy] using hne
  rw [hsf]
  simp only [Bool.false_eq_true, if_false, Option.getD_some,
    toStringValue_encodeOptStr i.start hstart, toStringValue_encodeOptStr i.end_ hend,
    toStringValue_encodeOptStr i.gpa hgpa, toStringValue_encodeOptStr i.major hmajor,
    toStringValue_encodeOptStr i.rank hrank, toStringValue_encodeOptStr i.degree hdegree,
    filterMap_encode_eq_self normalizeEducationCourse encodeCourse CourseOk
      normalizeEducationCourse_stab i.courses hcourses]

theorem normalizeProjectItem_stab (i : ProjectItem) (hOk : ProjItemOk i) :
    normalizeProjectItem (encodeProjectItem i) = some i := by
  obtain ⟨⟨hname, hne⟩, htime, hdesc, hresp, htech⟩ := hOk
  have h1 : optGet (asRecord (encodeProjectItem i)) "name" = .str i.name := rfl
  have h2 : optGet (asRecord (encodeProjectItem i)) "time" = encodeOptStr i.time := rfl
  have h3 : optGet (asRecord (encodeProjectItem i)) "description"
      = encodeOptStr i.description := rfl
  have h4 : optGet (asRecord (encodeProjectItem i)) "responsibilities"
      = encodeStrList i.responsibilities := rfl
  have h5 : optGet (asRecord (encodeProjectItem i)) "techStack"
      = encodeStrList i.techStack := rfl
  simp only [normalizeProjectItem, h1, h2, h3, h4, h5,
    toStringValue_str_of_StrOk i.name hname]
  have hsf : strFalsy (some i.name) = false := by simpa [strFalsy] using hne
  rw [hsf]
  simp only [Bool.false_eq_true, if_false, Option.getD_some,
    toStringValue_encodeOptStr i.time htime,
    toStringValue_encodeOptStr i.description hdesc,
    toStringArray_encodeStrList i.responsibilities hresp,
    normalizeTechStack_stab i.techStack htech]

theorem normalizeWorkItem_stab (i : WorkItem) (hOk : WorkItemOk i) :
    normalizeWorkItem (encodeWorkItem i) = some i := by
  obtain ⟨⟨hcomp, hne⟩, htime, hpos, hach⟩ := hOk
  have h1 : optGet (asRecord (encodeWorkItem i)) "company" = .str i.company := rfl
  have h2 : optGet (asRecord (encodeWorkItem i)) "time" = encodeOptStr i.time := rfl
  have h3 : optGet (asRecord (encodeWorkItem i)) "position" = encodeOptStr i.position := rfl
  have h4 : optGet (asRecord (encodeWorkItem i)) "achievements"
      = encodeStrList i.achievements := rfl
  simp only [normalizeWorkItem, h1, h2, h3, h4,
    toStringValue_str_of_StrOk i.company hcomp]
  have hsf : strFalsy (some i.company) = false := by simpa [strFalsy] using hne
  rw [hsf]
  simp only [Bool.false_eq_true, if_false, Option.getD_some,
    toStringValue_encodeOptStr i.time htime, toStringValue_encodeOptStr i.position hpos,
    toStringArray_encodeStrList i.achievements hach]

theorem normalizeHonorItem_stab (i : HonorItem) (hOk : HonorItemOk i) :
    normalizeHonorItem (encodeHonorItem i) = some i := by
  obtain ⟨⟨hname, hne⟩, htime⟩ := hOk
  have h1 : optGet (asRecord (encodeHonorItem i)) "name" = .str i.name := rfl
  have h2 : optGet (asRecord (encodeHonorItem i)) "time" = encodeOptStr i.time := rfl
  simp only [normalizeHonorItem, h1, h2,
    toStringValue_str_of_StrOk i.name hname, or_some_left]
  have hsf : strFalsy (some i.name) = false := by simpa [strFalsy] using hne
  rw [hsf]
  simp only [Bool.false_eq_true, if_false, Option.getD_some,
    toStringValue_encodeOptStr i.time htime]

theorem normalizeOpenSourceItem_stab (i : OpenSourceItem) (hOk : OssItemOk i) :
    normalizeOpenSourceItem (encodeOpenSourceItem i) = some i := by
  obtain ⟨⟨hname, hne⟩, hurl, hstars, hdesc, hach⟩ := hOk
  have h1 : optGet (asRecord (encodeOpenSourceItem i)) "name" = .str i.name := rfl
  have h2 : optGet (asRecord (encodeOpenSourceItem i)) "url" = encodeOptStr i.url := rfl
  have h3 : optGet (asRecord (encodeOpenSourceItem i)) "stars" = encodeOptStr i.stars := rfl
  have h4 : optGet (asRecord (encodeOpenSourceItem i)) "description"
      = encodeOptStr i.description := rfl
  have h5 : optGet (asRecord (encodeOpenSourceItem i)) "achievements"
      = encodeStrList i.achievements := rfl
  simp only [normalizeOpenSourceItem, h1, h2, h3, h4, h5,
    toStringValue_str_of_StrOk i.name hname]
  have hsf : strFalsy (some i.name) = false := by simpa [strFalsy] using hne
  rw [hsf]
  simp only [Bool.false_eq_true, if_false, Option.getD_some,
    toStringValue_encodeOptStr i.url hurl, toStringValue_encodeOptStr i.stars hstars,
    toStringValue_encodeOptStr i.description hdesc,
    toStringArray_encodeStrList i.achievements hach]

theorem itemSection_stab_core {α : Type} (normItem : Value → Option α)
    (encItem : α → Value) (P : α → Prop)
    (hstab : ∀ a, P a → normItem (encItem a) = some a)
    (s : SectionOf α) (hOk : SectionOk P s) (b : Bool) :
    (if ((s.items.map encItem).filterMap normItem).isEmpty = true then none
     else some (⟨b, (s.items.map encItem).filterMap normItem⟩ : SectionOf α))
      = some ⟨b, s.items⟩ := by
  obtain ⟨hne, hitems⟩ := hOk
  rw [filterMap_encode_eq_self normItem encItem P hstab s.items hitems]
  have hie : s.items.isEmpty = false := by simpa using hne
  rw [hie]
  rfl

theorem normalizeEducationSection_stab (s : SectionOf EducationItem)
    (hOk : SectionOk EduItemOk s) :
    normalizeEducationSection (encodeSection encodeEducationItem (some s)) = some s :=
  itemSection_stab_core normalizeEducationItem encodeEducationItem EduItemOk
    normalizeEducationItem_stab s hOk s.enabled

theorem normalizeProjectsSection_stab (s : SectionOf ProjectItem)
    (hOk : SectionOk ProjItemOk s) :
    normalizeProjectsSection (encodeSection encodeProjectItem (some s)) = some s :=
  itemSection_stab_core normalizeProjectItem encodeProjectItem ProjItemOk
    normalizeProjectItem_stab s hOk s.enabled

theorem normalizeWorkSection_stab (s : SectionOf WorkItem)
    (hOk : SectionOk WorkItemOk s) :
    normalizeWorkSection (encodeSection encodeWorkItem (some s)) = some s :=
  itemSection_stab_core normalizeWorkItem encodeWorkItem WorkItemOk
    normalizeWorkItem_stab s hOk s.enabled

theorem normalizeHonorsSection_stab (s : SectionOf HonorItem)
    (hOk : SectionOk HonorItemOk s) :
    normalizeHonorsSection (encodeSection encodeHonorItem (some s)) = some s :=
  itemSection_stab_core normalizeHonorItem encodeHonorItem HonorItemOk
    normalizeHonorItem_stab s hOk s.enabled

theorem normalizeOpenSourceSection_stab (s : SectionOf OpenSourceItem)
    (hOk : SectionOk OssItemOk s) :
    normalizeOpenSourceSection (encodeSection encodeOpenSourceItem (some s)) = some s :=
  itemSection_stab_core normalizeOpenSourceItem encodeOpenSourceItem OssItemOk
    normalizeOpenSourceItem_stab s hOk s.enabled

theorem normalizeSkillsSection_stab (s : SkillsConfig) (hOk : SkillsOk s) :
    normalizeSkillsSection (encodeSkills (some s)) = some s := by
  obtain ⟨hne, hitems⟩ := hOk
  have harr : toStringArray (coalesce
      (optGet (asRecord (encodeSkills (some s))) "items") (encodeSkills (some s)))
      = s.items := by
    rw [show coalesce (optGet (asRecord (encodeSkills (some s))) "items")
      (encodeSkills (some s)) = encodeStrList s.items from rfl]
    exact toStringArray_encodeStrList s.items hitems
  simp only [normalizeSkillsSection]
  rw [show truthy (encodeSkills (some s)) = true from rfl]
  simp only [Bool.not_true, Bool.false_eq_true, if_false, harr]
  have hie : s.items.isEmpty = false := by simpa using hne
  rw [hie]
  simp only [Bool.false_eq_true, if_false]
  rfl

theorem normalizeProfileSection_stab (p : ProfileSection) (hOk : ProfileOk p) :
    normalizeProfileSection (encodeProfile (some p)) = some p := by
  obtain ⟨hcont, hne⟩ := hOk
  simp only [normalizeProfileSection]
  rw [show truthy (encodeProfile (some p)) = true from rfl]
  simp only [Bool.not_true, Bool.false_eq_true, if_false]
  rw [show coalesce (optGet (asRecord (encodeProfile (some p))) "content")
    (encodeProfile (some p)) = .str p.content from rfl]
  rw [toStringValue_str_of_StrOk p.content hcont]
  have hsf : strFalsy (some p.content) = false := by simpa [strFalsy] using hne
  rw [hsf]
  simp only [Bool.false_eq_true, if_false]
  rfl

/-!  ## Links, summary, titles, order: output and stability  -/

theorem normalizeLinks_out (items : List Value) :
    ∀ l ∈ normalizeLinks items, LinkOk l := by
  intro l hl
  simp only [normalizeLinks] at hl
  rw [List.mem_filterMap] at hl
  obtain ⟨a, _, ha⟩ := hl
  split at ha
  · exact Option.noConfusion ha
  · next hcond =>
    injection ha with ha
    subst ha
    have hor : (strFalsy (toStringValue (optGet (asRecord a) "label")) ||
        strFalsy (toStringValue (optGet (asRecord a) "url"))) = false := by
      simpa using hcond
    rw [Bool.or_eq_false_iff] at hor
    exact ⟨strItemOk_of_not_falsy _ (ostrok_toStringValue _) hor.1,
           strItemOk_of_not_falsy _ (ostrok_toStringValue _) hor.2⟩

theorem normalizeLinks_stab (ls : List ResumeLink) (h : ∀ l ∈ ls, LinkOk l) :
    normalizeLinks (ls.map encodeLink) = ls := by
  simp only [normalizeLinks]
  refine filterMap_encode_eq_self _ encodeLink LinkOk ?_ ls h
  intro l hOk
  obtain ⟨⟨hlab, hlne⟩, hurl, hune⟩ := hOk
  have h1 : optGet (asRecord (encodeLink l)) "label" = .str l.label := rfl
  have h2 : optGet (asRecord (encodeLink l)) "url" = .str l.url := rfl
  rw [h1, h2, toStringValue_str_of_StrOk l.label hlab,
    toStringValue_str_of_StrOk l.url hurl]
  have hsf1 : strFalsy (some l.label) = false := by simpa [strFalsy] using hlne
  have hsf2 : strFalsy (some l.url) = false := by simpa [strFalsy] using hune
  rw [hsf1, hsf2]
  rfl

theorem normalizeEducationSummary_out (input : Option (List (String × Value))) :
    SummaryOk (normalizeEducationSummary input) := by
  cases input with
  | none => trivial
  | some fs =>
    exact ⟨ostrok_toStringValue _, ostrok_toStringValue _, ostrok_toStringValue _,
      ostrok_toStringValue _, ostrok_toStringValue _⟩

theorem normalizeEducationSummary_stab (e : Option BasicEducationSummary)
    (h : SummaryOk e) :
    normalizeEducationSummary (asRecord (encodeSummary e)) = e := by
  cases e with
  | none => rfl
  | some e0 =>
    obtain ⟨h1, h2, h3, h4, h5⟩ := h
    have g1 : toStringValue (optGet (asRecord (encodeSummary (some e0))) "school")
        = e0.school := by
      rw [show optGet (asRecord (encodeSummary (some e0))) "school"
        = encodeOptStr e0.school from rfl]
      exact toStringValue_encodeOptStr _ h1
    have g2 : toStringValue (optGet (asRecord (encodeSummary (some e0))) "major")
        = e0.major := by
      rw [show optGet (asRecord (encodeSummary (some e0))) "major"
        = encodeOptStr e0.major from rfl]
      exact toStringValue_encodeOptStr _ h2
    have g3 : toStringValue (optGet (asRecord (encodeSummary (some e0))) "degree")
        = e0.degree := by
      rw [show optGet (asRecord (encodeSummary (some e0))) "degree"
        = encodeOptStr e0.degree from rfl]
      exact toStringValue_encodeOptStr _ h3
    have g4 : toStringValue
        (optGet (asRecord (encodeSummary (some e0))) "graduationYear")
        = e0.graduationYear := by
      rw [show optGet (asRecord (encodeSummary (some e0))) "graduationYear"
        = encodeOptStr e0.graduationYear from rfl]
      exact toStringValue_encodeOptStr _ h4
    have g5 : toStringValue (optGet (asRecord (encodeSummary (some e0))) "raw")
        = e0.raw := by
      rw [show optGet (asRecord (encodeSummary (some e0))) "raw"
        = encodeOptStr e0.raw from rfl]
      exact toStringValue_encodeOptStr _ h5
    show (some ⟨toStringValue (optGet (asRecord (encodeSummary (some e0))) "school"),
      toStringValue (optGet (asRecord (encodeSummary (some e0))) "major"),
      toStringValue (optGet (asRecord (encodeSummary (some e0))) "degree"),
      toStringValue (optGet (asRecord (encodeSummary (some e0))) "graduationYear"),
      toStringValue (optGet (asRecord (encodeSummary (some e0))) "raw")⟩
      : Option BasicEducationSummary) = some e0
    rw [g1, g2, g3, g4, g5]

theorem setModuleTitle_ok (t : ModuleTitles) (k : ModuleKey) (v : String)
    (ht : TitlesOk t) (hv : StrItemOk v) : TitlesOk (setModuleTitle t k v) := by
  obtain ⟨h1, h2, h3, h4, h5, h6, h7⟩ := ht
  cases k with
  | education => exact ⟨hv, h2, h3, h4, h5, h6, h7⟩
  | skills => exact ⟨h1, hv, h3, h4, h5, h6, h7⟩
  | projects => exact ⟨h1, h2, hv, h4, h5, h6, h7⟩
  | profile => exact ⟨h1, h2, h3, hv, h5, h6, h7⟩
  | work => exact ⟨h1, h2, h3, h4, hv, h6, h7⟩
  | honors => exact ⟨h1, h2, h3, h4, h5, hv, h7⟩
  | openSource => exact ⟨h1, h2, h3, h4, h5, h6, hv⟩

theorem normalizeModuleTitleMap_out (input : Option (List (String × Value))) :
    ∀ kv ∈ normalizeModuleTitleMap input, StrItemOk kv.2 := by
  cases input with
  | none => intro kv h; exact absurd h (by simp [normalizeModuleTitleMap])
  | some fs =>
    suffices h : ∀ (l : List (String × Value)) (acc : List (ModuleKey × String)),
        (∀ kv ∈ acc, StrItemOk kv.2) →
        ∀ kv ∈ l.foldl titleMapStep acc, StrItemOk kv.2 by
      exact h fs [] (by simp)
    intro l
    induction l with
    | nil => intro acc hacc kv hkv; exact hacc kv hkv
    | cons a rest ih =>
      intro acc hacc kv hkv
      rw [List.foldl_cons] at hkv
      refine ih _ ?_ kv hkv
      intro kv2 hkv2
      simp only [titleMapStep] at hkv2
      split at hkv2
      · next moduleKey text hk htv =>
        split at hkv2
        · exact hacc kv2 hkv2
        · next hne =>
          rcases List.mem_append.mp hkv2 with hmem | hmem
          · exact hacc kv2 hmem
          · rw [List.mem_singleton] at hmem
            subst hmem
            exact ⟨toStringValue_StrOk _ _ htv, by simpa using hne⟩
      · exact hacc kv2 hkv2

theorem mergeModuleTitles_out :
    ∀ (entries : List (ModuleKey × String)) (base : ModuleTitles), TitlesOk base →
      (∀ kv ∈ entries, StrItemOk kv.2) → TitlesOk (mergeModuleTitles base entries)
  | [], _, hb, _ => hb
  | a :: rest, base, hb, he => by
    simp only [mergeModuleTitles, List.foldl_cons]
    have hrec := mergeModuleTitles_out rest (setModuleTitle base a.1 a.2)
      (setModuleTitle_ok base a.1 a.2 hb (he a (List.mem_cons_self a rest)))
      (fun kv hkv => he kv (List.mem_cons_of_mem a hkv))
    simpa [mergeModuleTitles] using hrec

theorem MODULE_TITLES_ok : TitlesOk MODULE_TITLES := by
  unfold TitlesOk StrItemOk StrOk
  decide

theorem titleMapStep_entry (out : List (ModuleKey × String)) (k : String)
    (m : ModuleKey) (v : String) (hk : normalizeModuleKey (some k) = some m)
    (hv : StrOk v) (hne : v ≠ "") :
    titleMapStep out (k, .str v) = out ++ [(m, v)] := by
  simp only [titleMapStep, hk, toStringValue_str_of_StrOk v hv]
  have hb : (v == "") = false := by simpa using hne
  rw [hb]
  simp only [Bool.false_eq_true, if_false]

theorem normalizeModuleTitleMap_encodeTitles (t : ModuleTitles) (h : TitlesOk t) :
    normalizeModuleTitleMap (asRecord (encodeTitles t)) =
      [(.education, t.education), (.skills, t.skills), (.projects, t.projects),
       (.profile, t.profile), (.work, t.work), (.honors, t.honors),
       (.openSource, t.openSource)] := by
  obtain ⟨⟨e1, e2⟩, ⟨s1, s2⟩, ⟨p1, p2⟩, ⟨r1, r2⟩, ⟨w1, w2⟩, ⟨n1, n2⟩, ⟨o1, o2⟩⟩ := h
  have he : ∀ out, titleMapStep out ("education", Value.str t.education)
      = out ++ [(ModuleKey.education, t.education)] :=
    fun out => titleMapStep_entry out "education" ModuleKey.education t.education
      (by decide) e1 e2
  have hs : ∀ out, titleMapStep out ("skills", Value.str t.skills)
      = out ++ [(ModuleKey.skills, t.skills)] :=
    fun out => titleMapStep_entry out "skills" ModuleKey.skills t.skills
      (by decide) s1 s2
  have hp : ∀ out, titleMapStep out ("projects", Value.str t.projects)
      = out ++ [(ModuleKey.projects, t.projects)] :=
    fun out => titleMapStep_entry out "projects" ModuleKey.projects t.projects
      (by decide) p1 p2
  have hr : ∀ out, titleMapStep out ("profile", Value.str t.profile)
      = out ++ [(ModuleKey.profile, t.profile)] :=
    fun out => titleMapStep_entry out "profile" ModuleKey.profile t.profile
      (by decide) r1 r2
  have hw : ∀ out, titleMapStep out ("work", Value.str t.work)
      = out ++ [(ModuleKey.work, t.work)] :=
    fun out => titleMapStep_entry out "work" ModuleKey.work t.work
      (by decide) w1 w2
  have hn : ∀ out, titleMapStep out ("honors", Value.str t.honors)
      = out ++ [(ModuleKey.honors, t.honors)] :=
    fun out => titleMapStep_entry out "honors" ModuleKey.honors t.honors
      (by decide) n1 n2
  have ho : ∀ out, titleMapStep out ("openSource", Value.str t.openSource)
      = out ++ [(ModuleKey.openSource, t.openSource)] :=
    fun out => titleMapStep_entry out "openSource" ModuleKey.openSource t.openSource
      (by decide) o1 o2
  show List.foldl titleMapStep []
    [("education", Value.str t.education), ("skills", Value.str t.skills),
     ("projects", Value.str t.projects), ("profile", Value.str t.profile),
     ("work", Value.str t.work), ("honors", Value.str t.honors),
     ("openSource", Value.str t.openSource)] = _
  simp only [List.foldl_cons, List.foldl_nil, he, hs, hp, hr, hw, hn, ho]
  rfl

theorem mergeModuleTitles_full (base t : ModuleTitles) :
    mergeModuleTitles base
      [(.education, t.education), (.skills, t.skills), (.projects, t.projects),
       (.profile, t.profile), (.work, t.work), (.honors, t.honors),
       (.openSource, t.openSource)] = t := rfl

theorem orderStep1_canonical :
    ∀ (ks acc : List ModuleKey), ks.Nodup → (∀ k ∈ ks, k ∉ acc) →
      (ks.map moduleKeyStr).foldl (fun output rawKey =>
        match normalizeModuleKey (some rawKey) with
        | none => output
        | some normalized =>
          if normalized ∈ output then output else output ++ [normalized]) acc
      = acc ++ ks := by
  intro ks
  induction ks with
  | nil => intro acc _ _; simp
  | cons k rest ih =>
    intro acc hnd hnotin
    simp only [List.map_cons, List.foldl_cons]
    have hk : normalizeModuleKey (some (moduleKeyStr k)) = some k := by
      cases k <;> decide
    simp only [hk]
    rw [if_neg (hnotin k (List.mem_cons_self k rest))]
    rw [ih (acc ++ [k]) (List.nodup_cons.mp hnd).2 ?_]
    · simp
    · intro x hx hmem
      rcases List.mem_append.mp hmem with hmem | hmem
      · exact hnotin x (List.mem_cons_of_mem k hx) hmem
      · rw [List.mem_singleton] at hmem
        subst hmem
        exact (List.nodup_cons.mp hnd).1 hx

theorem orderStep2_noop :
    ∀ (ds acc : List ModuleKey), (∀ k ∈ ds, k ∈ acc) →
      ds.foldl (fun output fallbackKey =>
        if fallbackKey ∈ output then output else output ++ [fallbackKey]) acc = acc := by
  intro ds
  induction ds with
  | nil => intro acc _; rfl
  | cons d rest ih =>
    intro acc h
    simp only [List.foldl_cons]
    rw [if_pos (h d (List.mem_cons_self d rest))]
    exact ih acc (fun k hk => h k (List.mem_cons_of_mem d hk))

theorem normalizeOrder_stab (ord : List ModuleKey) (h : ord.Perm DEFAULT_ORDER) :
    normalizeOrder (ord.map moduleKeyStr) = ord := by
  have hne : ord ≠ [] := by
    intro he
    have hlen := h.length_eq
    rw [he] at hlen
    exact absurd hlen (by decide)
  have hmap_ne : (ord.map moduleKeyStr).isEmpty = false := by
    cases ord with
    | nil => exact absurd rfl hne
    | cons a l => rfl
  simp only [normalizeOrder, hmap_ne, Bool.false_eq_true, if_false]
  rw [orderStep1_canonical ord [] (h.nodup_iff.mpr (by decide))
    (fun k _ => List.not_mem_nil k)]
  rw [List.nil_append]
  exact orderStep2_noop DEFAULT_ORDER ord (fun k _ => h.mem_iff.mpr (moduleKey_mem_default k))

/-!  ## Site and basic blocks: output and stability  -/

theorem moduleKeyStr_ok (k : ModuleKey) : StrItemOk (moduleKeyStr k) := by
  cases k <;> exact ⟨by unfold StrOk; decide, by decide⟩

theorem normalizeColor_stab (c : String) (hok : StrOk c)
    (hhash : hashPrefixed c = true) : normalizeColor c = c := by
  have hok' : jsTrim c = c := hok
  simp only [normalizeColor, hok']
  have hne : (c == "") = false := by
    cases hc : c == ""
    · rfl
    · exfalso
      have hce : c = "" := by simpa using hc
      rw [hce] at hhash
      exact absurd hhash (by decide)
  rw [hne]
  simp only [Bool.false_eq_true, if_false, hhash, if_true]

theorem strok_site_title_default : StrOk "个人简历" := by unfold StrOk; decide

theorem strok_pdf_default : StrOk "resume.pdf" := by unfold StrOk; decide

theorem strok_name_default : StrOk "未命名" := by unfold StrOk; decide

theorem normalizeModernSite_out (o : Option (List (String × Value))) :
    SiteOk (normalizeModernSite o) := by
  unfold SiteOk
  simp only [normalizeModernSite]
  exact ⟨getD_StrOk _ "个人简历" strok_site_title_default,
    ⟨(normalizeColor_out _).1, (normalizeColor_out _).2⟩,
    getD_StrOk _ "resume.pdf" strok_pdf_default,
    normalizeOrder_perm _,
    mergeModuleTitles_out _ MODULE_TITLES MODULE_TITLES_ok
      (normalizeModuleTitleMap_out _)⟩

theorem normalizeModernSite_stab (s : SiteConfig) (h : SiteOk s) :
    normalizeModernSite (asRecord (encodeSite s)) = s := by
  obtain ⟨htitle, ⟨hcol, hhash⟩, hpdf, horder, htitles⟩ := h
  have g1 : toStringValue (optGet (asRecord (encodeSite s)) "title")
      = some s.title := by
    rw [show optGet (asRecord (encodeSite s)) "title" = .str s.title from rfl]
    exact toStringValue_str_of_StrOk _ htitle
  have g2 : toStringValue (optGet (asRecord (encodeSite s)) "themeColor")
      = some s.themeColor := by
    rw [show optGet (asRecord (encodeSite s)) "themeColor"
      = .str s.themeColor from rfl]
    exact toStringValue_str_of_StrOk _ hcol
  have g3 : toStringValue (optGet (asRecord (encodeSite s)) "pdfFileName")
      = some s.pdfFileName := by
    rw [show optGet (asRecord (encodeSite s)) "pdfFileName"
      = .str s.pdfFileName from rfl]
    exact toStringValue_str_of_StrOk _ hpdf
  have g4 : toStringArray (optGet (asRecord (encodeSite s)) "order")
      = s.order.map moduleKeyStr := by
    rw [show optGet (asRecord (encodeSite s)) "order"
      = Value.arr (s.order.map (fun k => .str (moduleKeyStr k))) from rfl]
    rw [show Value.arr (s.order.map (fun k => .str (moduleKeyStr k)))
      = encodeStrList (s.order.map moduleKeyStr) by
        simp [encodeStrList, List.map_map, Function.comp]]
    refine toStringArray_encodeStrList _ ?_
    intro x hx
    rw [List.mem_map] at hx
    obtain ⟨k, _, hk⟩ := hx
    subst hk
    exact moduleKeyStr_ok k
  show (⟨(toStringValue (optGet (asRecord (encodeSite s)) "title")).getD "个人简历",
    normalizeColor
      ((toStringValue (optGet (asRecord (encodeSite s)) "themeColor")).getD "#111111"),
    (toStringValue (optGet (asRecord (encodeSite s)) "pdfFileName")).getD "resume.pdf",
    normalizeOrder (toStringArray (optGet (asRecord (encodeSite s)) "order")),
    mergeModuleTitles MODULE_TITLES (normalizeModuleTitleMap
      (asRecord (optGet (asRecord (encodeSite s)) "moduleTitles")))⟩ : SiteConfig) = s
  rw [g1, g2, g3, g4]
  simp only [Option.getD_some]
  rw [normalizeColor_stab s.themeColor hcol hhash]
  rw [normalizeOrder_stab s.order horder]
  rw [show asRecord (optGet (asRecord (encodeSite s)) "moduleTitles")
    = asRecord (encodeTitles s.moduleTitles) from rfl]
  rw [normalizeModuleTitleMap_encodeTitles s.moduleTitles htitles]
  rw [mergeModuleTitles_full MODULE_TITLES s.moduleTitles]

theorem normalizeModernBasic_out (o : Option (List (String × Value))) :
    BasicOk (normalizeModernBasic o) := by
  unfold BasicOk
  simp only [normalizeModernBasic]
  exact ⟨getD_StrOk _ "未命名" strok_name_default,
    ostrok_toStringValue _, ostrok_toStringValue _, ostrok_toStringValue _,
    ⟨ostrok_toStringValue _, ostrok_toStringValue _⟩,
    ⟨ostrok_toStringValue _, ostrok_toStringValue _, ostrok_toStringValue _⟩,
    normalizeEducationSummary_out _,
    normalizeLinks_out _⟩

theorem normalizeModernBasic_stab (b : BasicConfig) (h : BasicOk b) :
    normalizeModernBasic (asRecord (encodeBasic b)) = b := by
  obtain ⟨hname, hgen, hage, hpos, hwp, ⟨hwc, hph, hem⟩, hsum, hlinks⟩ := h
  cases hbwp : b.workPeriod with
  | none =>
    rw [hbwp] at hwp
    exact absurd hwp (fun hf => hf)
  | some wp =>
    cases wp with
    | mk ws we =>
      rw [hbwp] at hwp
      obtain ⟨hwps, hwpe⟩ := hwp
      have g1 : toStringValue (optGet (asRecord (encodeBasic b)) "name")
          = some b.name := by
        rw [show optGet (asRecord (encodeBasic b)) "name" = .str b.name from rfl]
        exact toStringValue_str_of_StrOk _ hname
      have g2 : toStringValue (optGet (asRecord (encodeBasic b)) "gender")
          = b.gender := by
        rw [show optGet (asRecord (encodeBasic b)) "gender"
          = encodeOptStr b.gender from rfl]
        exact toStringValue_encodeOptStr _ hgen
      have g3 : toStringValue (optGet (asRecord (encodeBasic b)) "age") = b.age := by
        rw [show optGet (asRecord (encodeBasic b)) "age" = encodeOptStr b.age from rfl]
        exact toStringValue_encodeOptStr _ hage
      have g4 : toStringValue (optGet (asRecord (encodeBasic b)) "position")
          = b.position := by
        rw [show optGet (asRecord (encodeBasic b)) "position"
          = encodeOptStr b.position from rfl]
        exact toStringValue_encodeOptStr _ hpos
      have gws : toStringValue (optGet (asRecord (optGet (asRecord (encodeBasic b))
          "workPeriod")) "start") = ws := by
        rw [show optGet (asRecord (encodeBasic b)) "workPeriod"
          = encodeWorkPeriod b.workPeriod from rfl, hbwp]
        rw [show optGet (asRecord (encodeWorkPeriod (some ⟨ws, we⟩))) "start"
          = encodeOptStr ws from rfl]
        exact toStringValue_encodeOptStr _ hwps
      have gwe : toStringValue (optGet (asRecord (optGet (asRecord (encodeBasic b))
          "workPeriod")) "end") = we := by
        rw [show optGet (asRecord (encodeBasic b)) "workPeriod"
          = encodeWorkPeriod b.workPeriod from rfl, hbwp]
        rw [show optGet (asRecord (encodeWorkPeriod (some ⟨ws, we⟩))) "end"
          = encodeOptStr we from rfl]
        exact toStringValue_encodeOptStr _ hwpe
      have gc1 : toStringValue (optGet (asRecord (optGet (asRecord (encodeBasic b))
          "contacts")) "wechat") = b.contacts.wechat := by
        rw [show optGet (asRecord (optGet (asRecord (encodeBasic b)) "contacts"))
          "wechat" = encodeOptStr b.contacts.wechat from rfl]
        exact toStringValue_encodeOptStr _ hwc
      have gc2 : toStringValue (optGet (asRecord (optGet (asRecord (encodeBasic b))
          "contacts")) "phone") = b.contacts.phone := by
        rw [show optGet (asRecord (optGet (asRecord (encodeBasic b)) "contacts"))
          "phone" = encodeOptStr b.contacts.phone from rfl]
        exact toStringValue_encodeOptStr _ hph
      have gc3 : toStringValue (optGet (asRecord (optGet (asRecord (encodeBasic b))
          "contacts")) "email") = b.contacts.email := by
        rw [show optGet (asRecord (optGet (asRecord (encodeBasic b)) "contacts"))
          "email" = encodeOptStr b.contacts.email from rfl]
        exact toStringValue_encodeOptStr _ hem
      have gsum : normalizeEducationSummary (asRecord (optGet (asRecord
          (encodeBasic b)) "educationSummary")) = b.educationSummary := by
        rw [show asRecord (optGet (asRecord (encodeBasic b)) "educationSummary")
          = asRecord (encodeSummary b.educationSummary) from rfl]
        exact normalizeEducationSummary_stab _ hsum
      have glinks : normalizeLinks (toArray (optGet (asRecord (encodeBasic b))
          "addressLinks")) = b.addressLinks := by
        rw [show toArray (optGet (asRecord (encodeBasic b)) "addressLinks")
          = b.addressLinks.map encodeLink from rfl]
        exact normalizeLinks_stab _ hlinks
      show (⟨(toStringValue (optGet (asRecord (encodeBasic b)) "name")).getD "未命名",
        toStringValue (optGet (asRecord (encodeBasic b)) "gender"),
        toStringValue (optGet (asRecord (encodeBasic b)) "age"),
        toStringValue (optGet (asRecord (encodeBasic b)) "position"),
        some ⟨toStringValue (optGet (asRecord (optGet (asRecord (encodeBasic b))
            "workPeriod")) "start"),
          toStringValue (optGet (asRecord (optGet (asRecord (encodeBasic b))
            "workPeriod")) "end")⟩,
        ⟨toStringValue (optGet (asRecord (optGet (asRecord (encodeBasic b))
            "contacts")) "wechat"),
          toStringValue (optGet (asRecord (optGet (asRecord (encodeBasic b))
            "contacts")) "phone"),
          toStringValue (optGet (asRecord (optGet (asRecord (encodeBasic b))
            "contacts")) "email")⟩,
        normalizeEducationSummary (asRecord (optGet (asRecord (encodeBasic b))
          "educationSummary")),
        normalizeLinks (toArray (optGet (asRecord (encodeBasic b))
          "addressLinks"))⟩ : BasicConfig) = b
      rw [g1, g2, g3, g4, gws, gwe, gc1, gc2, gc3, gsum, glinks]
      simp only [Option.getD_some]
      rw [← hbwp]

/-!  ## Whole-document invariant and stability (claim C6)  -/

theorem OSectionOk_intro {α : Type} (P : α → Prop) (o : Option (SectionOf α))
    (h : ∀ s, o = some s → SectionOk P s) : OSectionOk P o := by
  cases o with
  | none => trivial
  | some s => exact h s rfl

theorem OSkillsOk_intro (o : Option SkillsConfig)
    (h : ∀ s, o = some s → SkillsOk s) : OSkillsOk o := by
  cases o with
  | none => trivial
  | some s => exact h s rfl

theorem OProfileOk_intro (o : Option ProfileSection)
    (h : ∀ p, o = some p → ProfileOk p) : OProfileOk o := by
  cases o with
  | none => trivial
  | some p => exact h p rfl

theorem normalizeModernConfig_out (data : Value) :
    CanonicalOk (normalizeModernConfig data) := by
  unfold CanonicalOk
  simp only [normalizeModernConfig]
  exact ⟨normalizeModernSite_out _, normalizeModernBasic_out _,
    OSectionOk_intro _ _ (fun s hs => normalizeEducationSection_out _ s hs),
    OSkillsOk_intro _ (fun s hs => normalizeSkillsSection_out _ s hs),
    OSectionOk_intro _ _ (fun s hs => normalizeProjectsSection_out _ s hs),
    OProfileOk_intro _ (fun p hp => normalizeProfileSection_out _ p hp),
    OSectionOk_intro _ _ (fun s hs => normalizeWorkSection_out _ s hs),
    OSectionOk_intro _ _ (fun s hs => normalizeHonorsSection_out _ s hs),
    OSectionOk_intro _ _ (fun s hs => normalizeOpenSourceSection_out _ s hs)⟩

theorem sectionRoundtrip {α : Type} (norm : Value → Option (SectionOf α))
    (enc : α → Value) (P : α → Prop)
    (hnone : norm Value.undefinedV = none)
    (hstab : ∀ s, SectionOk P s → norm (encodeSection enc (some s)) = some s)
    (o : Option (SectionOf α)) (ho : OSectionOk P o) :
    norm (encodeSection enc o) = o := by
  cases o with
  | none => exact hnone
  | some s => exact hstab s ho

theorem skillsRoundtrip (o : Option SkillsConfig) (ho : OSkillsOk o) :
    normalizeSkillsSection (encodeSkills o) = o := by
  cases o with
  | none => rfl
  | some s => exact normalizeSkillsSection_stab s ho

theorem profileRoundtrip (o : Option ProfileSection) (ho : OProfileOk o) :
    normalizeProfileSection (encodeProfile o) = o := by
  cases o with
  | none => rfl
  | some p => exact normalizeProfileSection_stab p ho

theorem normalizeModernConfig_stab (c : NormalizedResumeConfig) (h : CanonicalOk c) :
    normalizeModernConfig (encodeConfig c) = c := by
  obtain ⟨hsite, hbasic, hedu, hskill, hproj, hprof, hwork, hhon, hoss⟩ := h
  simp only [normalizeModernConfig]
  have f1 : asRecord (getField (encodeConfig c) "site")
      = asRecord (encodeSite c.site) := rfl
  have f2 : asRecord (getField (encodeConfig c) "basic")
      = asRecord (encodeBasic c.basic) := rfl
  have f3 : getField (encodeConfig c) "education"
      = encodeSection encodeEducationItem c.education := rfl
  have f4 : getField (encodeConfig c) "skills" = encodeSkills c.skills := rfl
  have f5 : getField (encodeConfig c) "projects"
      = encodeSection encodeProjectItem c.projects := rfl
  have f6 : getField (encodeConfig c) "profile" = encodeProfile c.profile := rfl
  have f7 : getField (encodeConfig c) "work"
      = encodeSection encodeWorkItem c.work := rfl
  have f8 : getField (encodeConfig c) "honors"
      = encodeSection encodeHonorItem c.honors := rfl
  have f9 : getField (encodeConfig c) "openSource"
      = encodeSection encodeOpenSourceItem c.openSource := rfl
  rw [f1, f2, f3, f4, f5, f6, f7, f8, f9]
  rw [normalizeModernSite_stab c.site hsite,
    normalizeModernBasic_stab c.basic hbasic,
    sectionRoundtrip normalizeEducationSection encodeEducationItem EduItemOk rfl
      normalizeEducationSection_stab c.education hedu,
    skillsRoundtrip c.skills hskill,
    sectionRoundtrip normalizeProjectsSection encodeProjectItem ProjItemOk rfl
      normalizeProjectsSection_stab c.projects hproj,
    profileRoundtrip c.profile hprof,
    sectionRoundtrip normalizeWorkSection encodeWorkItem WorkItemOk rfl
      normalizeWorkSection_stab c.work hwork,
    sectionRoundtrip normalizeHonorsSection encodeHonorItem HonorItemOk rfl
      normalizeHonorsSection_stab c.honors hhon,
    sectionRoundtrip normalizeOpenSourceSection encodeOpenSourceItem OssItemOk rfl
      normalizeOpenSourceSection_stab c.openSource hoss]

theorem encodeConfig_modernPath (c : NormalizedResumeConfig) :
    takesModernPath (encodeConfig c) = true := rfl

/-- C6: normalization is idempotent through the modern shape — for every raw
input `x` that takes the modern path and normalizes to the canonical document
`c`, feeding `c` (as the raw JS object it is at runtime, `encodeConfig c`)
back into `normalizeConfig` returns a document equal to `c`. -/
theorem normalizeConfig_idempotent_modern (x : Value) (c : NormalizedResumeConfig)
    (hmodern : takesModernPath x = true) (hx : normalizeConfig x = some c) :
    normalizeConfig (encodeConfig c) = some c := by
  have hc : c = normalizeModernConfig (dataOf x) := by
    rw [normalizeConfig_modern x hmodern] at hx
    exact (Option.some.inj hx).symm
  have hok : CanonicalOk c := by
    rw [hc]
    exact normalizeModernConfig_out (dataOf x)
  rw [normalizeConfig_modern (encodeConfig c) (encodeConfig_modernPath c)]
  rw [show dataOf (encodeConfig c) = encodeConfig c from rfl]
  rw [normalizeModernConfig_stab c hok]

/-- Witness for C6 at the empty modern document. -/
theorem normalizeConfig_idempotent_modern_witness :
    normalizeConfig (encodeConfig emptyModernDoc) = some emptyModernDoc :=
  normalizeConfig_idempotent_modern (Value.obj []) emptyModernDoc rfl rfl
